import Mathlib

/-!
Verification development for the node-graph workflow execution engine
(`src/api/simple_main.py`).  The Python source is shallowly embedded:

* Python values flowing between nodes are the inductive `Value`
  (JSON-compatible trees; Python `None` is `Value.null`, Python floats are
  decimal pairs `float m e` denoting `m / 10^e` — the engine only ever
  creates floats by parsing digit strings, so decimals are exact here).
* Python dicts are association lists in insertion order (CPython dicts
  preserve insertion order); dict assignment is `objSet`, which replaces an
  existing key in place and appends a fresh key at the end, exactly like
  CPython.
* Executors that perform I/O (HTTP, filesystem, SQL, LLM, embedding,
  the TypeScript subprocess) and the RestrictedPython compile/exec step of
  the inline-python executor are abstracted as an `Effects` environment of
  oracles; everything the scheduler, the foreach coordinator, the
  sub-workflow runner and the pure executors do with the oracles' outcomes
  is embedded faithfully from the source.
* Wall-clock fields (`execution_time`, `total_time`) are not modelled; no
  claim concerns them.
-/

namespace Workflow

/-- Runtime payload flowing between nodes (the Python value tree).
`float m e` denotes the decimal `m / 10^e`; Python `None` is `null`. -/
inductive Value where
  | null : Value
  | bool (b : Bool) : Value
  | int (n : Int) : Value
  | float (m : Int) (e : Nat) : Value
  | str (s : String) : Value
  | arr (xs : List Value) : Value
  | obj (fields : List (String × Value)) : Value
deriving Repr

/-- First-match association-list lookup: Python `d.get(k)` on an
insertion-ordered dict. -/
def lookupField : List (String × Value) → String → Option Value
  | [], _ => none
  | (k, v) :: rest, key => if k = key then some v else lookupField rest key

/-- Python `d.get(k, default)`. -/
def cfgGet (fields : List (String × Value)) (k : String) (d : Value) : Value :=
  (lookupField fields k).getD d

/-- Python dict assignment `d[k] = v` (and the `{**d, k: v}` merge): replace
in place when the key exists, append at the end otherwise. -/
def objSet (fields : List (String × Value)) (k : String) (v : Value) : List (String × Value) :=
  if (lookupField fields k).isSome then
    fields.map (fun kv => if kv.1 = k then (k, v) else kv)
  else fields ++ [(k, v)]

/-- Python truthiness of a value. -/
def Value.truthy : Value → Bool
  | .null => false
  | .bool b => b
  | .int n => n ≠ 0
  | .float m _ => m ≠ 0
  | .str s => s ≠ ""
  | .arr xs => ¬ xs.isEmpty
  | .obj fs => ¬ fs.isEmpty

/-- Python `type(v).__name__`. -/
def pyTypeName : Value → String
  | .null => "NoneType"
  | .bool _ => "bool"
  | .int _ => "int"
  | .float _ _ => "float"
  | .str _ => "str"
  | .arr _ => "list"
  | .obj _ => "dict"

/-- Numeric view used by Python cross-type numeric comparison
(`bool` counts as 0/1); a pair `(m, e)` denotes `m / 10^e`. -/
def Value.asNum? : Value → Option (Int × Nat)
  | .bool b => some (if b then 1 else 0, 0)
  | .int n => some (n, 0)
  | .float m e => some (m, e)
  | _ => none

/-- Ordering of integers (kernel-reducible `compare`). -/
def intCmp (x y : Int) : Ordering :=
  if x < y then .lt else if x = y then .eq else .gt

/-- Is this value exactly the string `s`?  (Python `v == "s"` for a literal;
boolean so definitions need no decidable equality on `Value`.) -/
def isStrV (v : Value) (s : String) : Bool :=
  match v with
  | .str t => t = s
  | _ => false

/-- Is this value Python `None`? -/
def isNullV (v : Value) : Bool :=
  match v with
  | .null => true
  | _ => false

/-- Exact comparison of two decimals `m / 10^e`. -/
def decCmp (a b : Int × Nat) : Ordering :=
  intCmp (a.1 * 10 ^ b.2) (b.1 * 10 ^ a.2)

mutual
/-- Python `==` on values: numeric types compare by value, strings and
`None` by identity of content, lists elementwise, dicts by key set and
per-key equality (insertion order is irrelevant, as for CPython dicts). -/
def Value.peq : Value → Value → Bool
  | .null, .null => true
  | .str x, .str y => x = y
  | .arr xs, .arr ys => peqList xs ys
  | .obj xs, .obj ys => xs.length = ys.length && peqFields xs ys
  | a, b =>
    match a.asNum?, b.asNum? with
    | some x, some y => decCmp x y = .eq
    | _, _ => false

def peqList : List Value → List Value → Bool
  | [], [] => true
  | x :: xs, y :: ys => Value.peq x y && peqList xs ys
  | _, _ => false

def peqFields : List (String × Value) → List (String × Value) → Bool
  | [], _ => true
  | (k, v) :: rest, ys =>
    (match lookupField ys k with
     | some w => Value.peq v w
     | none => false) && peqFields rest ys
end

/-- Single-character split, modelling Python `s.split(c)` (kernel-reducible
replacement for `String.splitOn`). -/
def splitCharAux (c : Char) : List Char → List Char → List String
  | [], acc => [String.mk acc.reverse]
  | x :: xs, acc =>
    if x = c then String.mk acc.reverse :: splitCharAux c xs []
    else splitCharAux c xs (x :: acc)

/-- Python `s.split(c)` for a one-character separator. -/
def splitChar (s : String) (c : Char) : List String :=
  splitCharAux c s.toList []

/-- Python `c in s` for a character. -/
def strHasChar (s : String) (c : Char) : Bool :=
  s.toList.any (· = c)

/-- Join with a separator (kernel-reducible `String.intercalate`). -/
def joinWith (sep : String) : List String → String
  | [] => ""
  | [x] => x
  | x :: xs => x ++ sep ++ joinWith sep xs

/-- Decimal rendering of the model's floats (Python `str` of a float parsed
from a digit string). -/
def floatStr (m : Int) (e : Nat) : String :=
  let sign := if m < 0 then "-" else ""
  let ds := (toString m.natAbs).toList
  let ds := if ds.length ≤ e then List.replicate (e + 1 - ds.length) '0' ++ ds else ds
  let cut := ds.length - e
  if e = 0 then sign ++ String.mk ds ++ ".0"
  else sign ++ String.mk (ds.take cut) ++ "." ++ String.mk (ds.drop cut)

mutual
/-- Python `repr()` of a value (string quoting/escaping simplified; no claim
depends on container renderings). -/
def pyRepr : Value → String
  | .null => "None"
  | .bool b => if b then "True" else "False"
  | .int n => toString n
  | .float m e => floatStr m e
  | .str s => "'" ++ s ++ "'"
  | .arr xs => "[" ++ pyReprList xs ++ "]"
  | .obj fs => "\x7b" ++ pyReprFields fs ++ "\x7d"

def pyReprList : List Value → String
  | [] => ""
  | [x] => pyRepr x
  | x :: xs => pyRepr x ++ ", " ++ pyReprList xs

def pyReprFields : List (String × Value) → String
  | [] => ""
  | [(k, v)] => "'" ++ k ++ "': " ++ pyRepr v
  | (k, v) :: xs => "'" ++ k ++ "': " ++ pyRepr v ++ ", " ++ pyReprFields xs
end

/-- Python `str()` of a value. -/
def pyStr : Value → String
  | .str s => s
  | v => pyRepr v

/-- Leading-segment test on character lists (helper for substring search). -/
def leadEq : List Char → List Char → Bool
  | [], _ => true
  | _ :: _, [] => false
  | a :: x, b :: y => a = b && leadEq x y

/-- Substring occurrence, modelling Python's `needle in hay`. -/
def strHasSub (hay needle : String) : Bool :=
  go needle.toList hay.toList
where
  go (n : List Char) : List Char → Bool
    | [] => leadEq n []
    | c :: t => leadEq n (c :: t) || go n t

/-- Python `s.isdigit()` (ASCII digits; nonempty). -/
def isDigitStr (s : String) : Bool :=
  s ≠ "" && s.toList.all (·.isDigit)

/-- Integer value of an all-digits string (Python `int(s)`). -/
def parseIntStr (s : String) : Int :=
  s.toList.foldl (fun a c => a * 10 + (c.toNat - 48 : Nat)) (0 : Int)

/-- Python `s.replace('.', '', 1)`: drop the first dot. -/
def replaceFirstDot (s : String) : String :=
  match splitChar s '.' with
  | [] => s
  | [x] => x
  | x :: y :: rest => joinWith "." ((x ++ y) :: rest)

/-- Python `float(s)` for a digit string with one dot. -/
def parseFloatStr (s : String) : Value :=
  match splitChar s '.' with
  | [i, f] => .float (parseIntStr (i ++ f)) f.length
  | _ => .float (parseIntStr (replaceFirstDot s)) 0

/-- The comparison-value promotion of `execute_conditional_logic`
(src lines 630-637): digit strings become ints, digit-or-single-dot strings
become floats. -/
def promote (v : Value) : Value :=
  match v with
  | .str s =>
    if isDigitStr s then .int (parseIntStr s)
    else if isDigitStr (replaceFirstDot s) then parseFloatStr s
    else v
  | _ => v

/-- Python ordering comparison; `none` models a `TypeError` (caught by the
condition evaluator and turned into `False`).  Numbers compare numerically,
strings lexicographically; Python sequence comparisons are not exercised by
any claim and are modelled as a type error. -/
def pyCmp? (a b : Value) : Option Ordering :=
  match a.asNum?, b.asNum? with
  | some x, some y => some (decCmp x y)
  | _, _ =>
    match a, b with
    | .str x, .str y => some (compare x y)
    | _, _ => none

/-- Dotted-path walk of `evaluate_condition` (src lines 602-614): descend
through nested dicts, `None` as soon as a segment is missing or the current
value is not a dict. -/
def walkPath : List String → Value → Value
  | [], cur => cur
  | p :: rest, cur =>
    match cur with
    | .obj fs => walkPath rest ((lookupField fs p).getD .null)
    | _ => .null

/-- Operator dispatch of `evaluate_condition` (src lines 639-661); the inner
`try/except (TypeError, ValueError)` makes failed comparisons `False`. -/
def apply_operator (op : Value) (field_value value : Value) : Bool :=
  if isStrV op "==" then Value.peq field_value value
  else if isStrV op "!=" then ! Value.peq field_value value
  else if isStrV op ">" then
    (match pyCmp? field_value value with | some .gt => true | _ => false)
  else if isStrV op "<" then
    (match pyCmp? field_value value with | some .lt => true | _ => false)
  else if isStrV op ">=" then
    (match pyCmp? field_value value with | some .gt => true | some .eq => true | _ => false)
  else if isStrV op "<=" then
    (match pyCmp? field_value value with | some .lt => true | some .eq => true | _ => false)
  else if isStrV op "contains" then
    (match value with | .str nv => strHasSub (pyStr field_value) nv | _ => false)
  else if isStrV op "exists" then true
  else false

/-- `evaluate_condition` (src lines 593-661).  `none` models an exception
that escapes the helper (a non-string `field` makes `'.' in field` raise)
and is caught by the executor's outer `try`, producing an error outcome. -/
def evaluate_condition (cond : List (String × Value)) (data : Value) : Option Bool :=
  let field := (lookupField cond "field").getD (.str "")
  let op := (lookupField cond "operator").getD (.str "==")
  let value0 := (lookupField cond "value").getD (.str "")
  match field with
  | .str f =>
    let field_value : Value :=
      match data with
      | .obj fs =>
        if strHasChar f '.' then walkPath (splitChar f '.') data
        else (lookupField fs f).getD .null
      | _ => data
    if isNullV field_value then
      some (if isStrV op "exists" then false
            else if isStrV op "!=" then ! isNullV value0
            else false)
    else
      some (apply_operator op field_value (promote value0))
  | _ => none

/-- Uniform executor outcome (`NodeOutcome` minus the unmodelled
`execution_time`). -/
structure Outcome where
  status : String
  output : Value
  stdout : String := ""
  stderr : String := ""
  error : Option String := none
deriving Repr

/-- Clause scan of `execute_conditional_logic` (src lines 666-673): first
matching clause wins; `Except.error` models an exception escaping to the
executor's outer `try` (non-dict clause or condition expression). -/
def condMatch (conds : List Value) (input : Value) (i : Nat) :
    Except Unit (Option (Nat × Value)) :=
  match conds with
  | [] => .ok none
  | c :: rest =>
    match c with
    | .obj cfs =>
      let out := (lookupField cfs "output").getD input
      match (lookupField cfs "condition").getD (.obj []) with
      | .obj efs =>
        match evaluate_condition efs input with
        | none => .error ()
        | some true => .ok (some (i, out))
        | some false => condMatch rest input (i + 1)
      | _ => .error ()
    | _ => .error ()

/-- Error outcome of `execute_conditional_logic`'s outer `except` (the
exception text is abstracted; no claim reads it). -/
def condError : Outcome :=
  { status := "error", output := .null, stdout := "",
    stderr := "TypeError", error := some "Conditional logic failed: TypeError" }

/-- `execute_conditional_logic` (src lines 583-705).  A non-list truthy
`conditions` value raises while being iterated (error outcome); a falsy one
iterates zero times. -/
def execute_conditional_logic (config : List (String × Value)) (input : Value) : Outcome :=
  let condition_type := cfgGet config "type" (.str "if")
  let default_output := cfgGet config "default" input
  let run : List Value → Outcome := fun conds =>
    match condMatch conds input 0 with
    | .error _ => condError
    | .ok matched =>
      let result_output := match matched with
        | some iv => iv.2
        | none => default_output
      let matched_condition : Value := match matched with
        | some iv => .int iv.1
        | none => .null
      let base := [("result", result_output), ("matched_condition", matched_condition),
                   ("input", input), ("condition_type", condition_type)]
      let outFields := match result_output with
        | .obj fs => fs.foldl (fun acc kv => objSet acc kv.1 kv.2) base
        | _ => base
      { status := "success", output := .obj outFields,
        stdout := match matched with
          | some iv => "Condition evaluated: matched condition " ++ toString iv.1
          | none => "No conditions matched, using default",
        stderr := "", error := none }
  match cfgGet config "conditions" (.arr []) with
  | .arr conds => run conds
  | other => if other.truthy then condError else run []

/-! ### File node path handling (claim C3)

`execute_file_operation` (src lines 483-562) normalizes the client path
before any I/O: a path that does not start with the literal string
`/tmp/workflow_files/` is replaced by `safe_base / Path(path).name`; a path
that does start with it is used verbatim.  The I/O itself is an oracle; the
pure path computation is embedded here. -/

/-- `PurePosixPath(p).name`: the last path component, with empty and `.`
components ignored (trailing slashes stripped). -/
def pathName (p : String) : String :=
  ((splitChar p '/').filter (fun c => c ≠ "" && c ≠ ".")).getLast?.getD ""

/-- Python `s.startswith(p)` (kernel-reducible). -/
def strStarts (p s : String) : Bool :=
  leadEq p.toList s.toList

/-- The path normalization at the top of `execute_file_operation`
(src lines 491-496). -/
def normalize_file_path (file_path : String) : String :=
  if strStarts "/tmp/workflow_files/" file_path then file_path
  else
    let nm := pathName file_path
    if nm = "" then "/tmp/workflow_files" else "/tmp/workflow_files/" ++ nm

/-- POSIX resolution of a path string: component list after eliminating
empty, `.` and `..` segments (what the operating system actually opens). -/
def resolvedComponents (p : String) : List String :=
  ((splitChar p '/').filter (fun c => c ≠ "" && c ≠ ".")).foldl
    (fun acc c => if c = ".." then acc.dropLast else acc ++ [c]) []

/-- The resolved path lies inside the safe directory `/tmp/workflow_files/`. -/
def withinSafeRoot (p : String) : Bool :=
  (resolvedComponents p).take 2 = ["tmp", "workflow_files"]

/-! ### Inline python executor (claim C9)

`execute_python_code` (src lines 68-252).  The RestrictedPython
compile + `exec` step and the optional call of the user's `run` entry point
are abstracted as a `PyEval` oracle value; the executor's handling of each
outcome is embedded from the source. -/

/-- Abstract result of compiling and executing a python node's code.
`stdout`/`stderr` are the captured streams at the end of evaluation. -/
inductive PyEval where
  | compileFail : PyEval
  | raised (msg : String) (out err : String) : PyEval
  | noRun (out err : String) : PyEval
  | returned (v : Value) (out err : String) : PyEval
deriving Repr

/-- `execute_python_code` (src lines 212-252): a compile failure and a
raised exception are error outcomes; a completed `exec` uses `run(input)`'s
return value as the output when `run` was defined, and the node's input
unchanged otherwise. -/
def execute_python_code (ev : PyEval) (input : Value) : Outcome :=
  match ev with
  | .compileFail =>
    { status := "error", output := .null, stdout := "", stderr := "",
      error := some "Failed to compile Python code" }
  | .raised msg out err =>
    { status := "error", output := .null, stdout := out, stderr := err, error := some msg }
  | .noRun out err =>
    { status := "success", output := input, stdout := out, stderr := err, error := none }
  | .returned v out err =>
    { status := "success", output := v, stdout := out, stderr := err, error := none }

/-! ### Topological sort (claim C2)

`topological_sort_nodes` (src lines 2416-2451): Kahn's algorithm over the
node-id/connection maps, with the leftover (cyclic or unreachable-by-Kahn)
nodes appended afterwards.  Python iterates dicts in insertion order; node
ids are a `List String` and connections a `List Conn` in that order.  The
leftover append (`result.extend(set(nodes_data.keys()) - set(result))`,
src line 2449) iterates a Python `set` of strings, whose order CPython
leaves implementation-defined; the embedding therefore takes that
enumeration as an explicit oracle `senum`, and a theorem may assume of it
at most that it enumerates the set's elements (a permutation of the keys
missing from the Kahn order). -/

/-- A connection: `sourceOutput`/`targetInput` are carried by the wire
format but never used for routing, so only the endpoints are modelled. -/
structure Conn where
  source : String
  target : String
deriving Repr

/-- Adjacency map built by the first loop of `topological_sort_nodes`
(connections with an endpoint outside the node map are ignored). -/
def buildGraph (nodeIds : List String) (conns : List Conn) : String → List String :=
  conns.foldl
    (fun g c =>
      if c.source ∈ nodeIds ∧ c.target ∈ nodeIds then
        fun x => if x = c.source then g x ++ [c.target] else g x
      else g)
    (fun _ => [])

/-- In-degree map built by the same loop (Python ints, hence `Int`). -/
def buildIndeg (nodeIds : List String) (conns : List Conn) : String → Int :=
  conns.foldl
    (fun d c =>
      if c.source ∈ nodeIds ∧ c.target ∈ nodeIds then
        fun x => if x = c.target then d x + 1 else d x
      else d)
    (fun _ => 0)

/-- Inner `for target_id in graph[node_id]` loop: decrement each target's
in-degree in order, collecting the targets that reach exactly zero (they are
appended to the queue). -/
def relaxTargets (ts : List String) (deg : String → Int) : (String → Int) × List String :=
  match ts with
  | [] => (deg, [])
  | t :: rest =>
    let deg1 : String → Int := fun x => if x = t then deg x - 1 else deg x
    let p := relaxTargets rest deg1
    (p.1, (if deg1 t = 0 then [t] else []) ++ p.2)

/-- The `while queue:` loop.  Fuel is structural; `topological_sort_nodes`
supplies `|nodes| + |conns| + 1`, which the development proves is never
exhausted (each loop iteration strictly decreases
`|queue| + Σ max(deg, 0)`). -/
def kahnLoop (graph : String → List String) :
    Nat → List String → (String → Int) → List String → List String
  | 0, _, _, res => res
  | _ + 1, [], _, res => res
  | fuel + 1, n :: rest, deg, res =>
    let p := relaxTargets (graph n) deg
    kahnLoop graph fuel (rest ++ p.2) p.1 (res ++ [n])

/-- The Kahn phase of `topological_sort_nodes`: initial queue = zero
in-degree nodes in insertion order, then the `while` loop. -/
def kahn_phase (nodeIds : List String) (conns : List Conn) : List String :=
  let deg := buildIndeg nodeIds conns
  kahnLoop (buildGraph nodeIds conns) (nodeIds.length + conns.length + 1)
    (nodeIds.filter (fun n => deg n = 0)) deg []

/-- `topological_sort_nodes` (src lines 2416-2451): Kahn order, then the
remaining keys appended by iterating the set difference
`set(nodes_data.keys()) - set(result)` — the set's elements are the node
ids missing from the Kahn order (`nodeIds.filter (fun n => n ∉ r)` lists
them, each once, since node ids are dict keys), and `senum` is the
implementation-defined order in which CPython enumerates that set. -/
def topological_sort_nodes (senum : List String → List String)
    (nodeIds : List String) (conns : List Conn) : List String :=
  let r := kahn_phase nodeIds conns
  r ++ senum (nodeIds.filter (fun n => n ∉ r))

/-! Specification-side views of the sort's data, used to state and prove
its ordering property. -/

/-- Occurrences of `x` in `l`. -/
def cnt (x : String) (l : List String) : Nat :=
  (l.filter (fun y => y = x)).length

/-- The connections the sort actually uses: both endpoints in the node map. -/
def edges (nodeIds : List String) (conns : List Conn) : List Conn :=
  conns.filter (fun c => decide (c.source ∈ nodeIds) && decide (c.target ∈ nodeIds))

/-- In-degree of `t` within the filtered edge list. -/
def ecnt (E : List Conn) (t : String) : Nat :=
  (E.filter (fun c => c.target = t)).length

/-- Number of edges into `t` whose source is already in `res`. -/
def ecount (E : List Conn) (res : List String) (t : String) : Nat :=
  (E.filter (fun c => c.target = t && decide (c.source ∈ res))).length

/-- Number of edges from `n` to `t`. -/
def epair (E : List Conn) (n t : String) : Nat :=
  (E.filter (fun c => c.source = n && c.target = t)).length

/-- Loop measure: queue length plus total remaining in-degree mass; it
strictly decreases at every iteration of the Kahn loop, which is how the
fuel of `kahn_phase` is shown sufficient. -/
def kahnMeasure (nodeIds queue : List String) (deg : String → Int) : Nat :=
  queue.length + (nodeIds.map (fun n => (deg n).toNat)).sum

/-- Invariant of the Kahn loop relating queue, in-degree map and emitted
order. -/
structure KahnInv (nodeIds : List String) (conns : List Conn)
    (queue : List String) (deg : String → Int) (res : List String) : Prop where
  nodup : (res ++ queue).Nodup
  degEq : ∀ t, deg t = (ecnt (edges nodeIds conns) t : Int)
    - (ecount (edges nodeIds conns) res t : Int)
  queueZero : ∀ t ∈ queue, deg t = 0
  resZero : ∀ t ∈ res, deg t = 0
  resClosed : ∀ c ∈ edges nodeIds conns, c.target ∈ res → [c.source, c.target].Sublist res
  queueSub : ∀ t ∈ queue, t ∈ nodeIds
  resSub : ∀ t ∈ res, t ∈ nodeIds
  covered : ∀ n ∈ nodeIds, n ∈ res ∨ n ∈ queue ∨ 0 < deg n

/-! ### Graph data model and executor environment -/

/-- A workflow node.  `config` is the free-form options mapping (a node
whose wire `config` is not a mapping is not modelled, no claim concerns
one); `code` is the inline-script source for python/typescript nodes. -/
structure NodeData where
  type : String := "unknown"
  title : Option String := none
  code : Option String := none
  config : List (String × Value) := []
  skipDuringExecution : Bool := false
deriving Repr

/-- First-match lookup in the node map (Python dict keys are unique and
insertion ordered). -/
def lookupNode : List (String × NodeData) → String → Option NodeData
  | [], _ => none
  | (k, v) :: rest, key => if k = key then some v else lookupNode rest key

/-- `nodes_data.get(node_id, {}).get('type', '')` as used by the body
discovery and the endloop scan: a missing node reads as type `""`. -/
def nodeTypeOf (nodes : List (String × NodeData)) (nid : String) : String :=
  match lookupNode nodes nid with
  | some nd => nd.type
  | none => ""

/-- Default code of a python node without a `code` field (src line 2569). -/
def pythonDefaultCode : String := "def run(input):\n    return input"

/-- Default code of a typescript node without a `code` field (src line
2574). -/
def tsDefaultCode : String :=
  "async function run(input: any): Promise<any> \x7b\n    return input;\n\x7d"

/-- Environment of executors whose behaviour depends on the outside world
(network, filesystem, SQL store, LLM providers, the embedding model, the
TypeScript subprocess) or on running user code (RestrictedPython).  The
engine's treatment of their outcomes is embedded; the outcomes themselves
are oracle values. -/
structure Effects where
  python : String → Value → PyEval
  typescript : String → Value → Outcome
  /-- The implementation-defined order in which the interpreter enumerates
  a Python `set` of strings (consumed by the leftover append of
  `topological_sort_nodes`); an enumeration lists the set's elements, so a
  theorem may assume its output is a permutation of its input. -/
  setEnum : List String → List String
  http : List (String × Value) → Value → Outcome
  file : List (String × Value) → Value → Outcome
  database : List (String × Value) → Value → Outcome
  llm : List (String × Value) → Value → Outcome
  markdown : List (String × Value) → Value → Outcome
  html : List (String × Value) → Value → Outcome
  jsonViewer : List (String × Value) → Value → Outcome
  embedding : List (String × Value) → Value → Outcome

/-- An environment in which every external executor fails and no python
code compiles; used to instantiate concrete scenarios that never reach an
external executor. -/
def trivialEffects : Effects where
  python := fun _ _ => .compileFail
  typescript := fun _ _ => { status := "error", output := .null, error := some "external" }
  setEnum := fun l => l
  http := fun _ _ => { status := "error", output := .null, error := some "external" }
  file := fun _ _ => { status := "error", output := .null, error := some "external" }
  database := fun _ _ => { status := "error", output := .null, error := some "external" }
  llm := fun _ _ => { status := "error", output := .null, error := some "external" }
  markdown := fun _ _ => { status := "error", output := .null, error := some "external" }
  html := fun _ _ => { status := "error", output := .null, error := some "external" }
  jsonViewer := fun _ _ => { status := "error", output := .null, error := some "external" }
  embedding := fun _ _ => { status := "error", output := .null, error := some "external" }

/-! ### ForEach body discovery

`find_downstream_nodes` (src lines 1915-1956): breadth-first walk from the
foreach node, stopping at `endloop` (recorded, appended once at the end),
`end` and nested `foreach` targets.  A target enqueued but not yet popped is
not in `visited`, so two connections to the same target can append it to the
body twice — the model reproduces that. -/

/-- One node's outgoing-connection scan (the inner `for conn ...` loop):
returns the targets appended to both queue and body, and the (last seen)
endloop id.  A falsy (empty) target id is skipped, as is a target already
in `visited`. -/
def bfsTargets (nodes : List (String × NodeData)) (conns : List Conn) (cur : String)
    (visited : List String) (el0 : Option String) : List String × Option String :=
  conns.foldl
    (fun acc c =>
      if c.source = cur ∧ c.target ≠ "" ∧ c.target ∉ visited then
        let ty := nodeTypeOf nodes c.target
        if ty = "endloop" then (acc.1, some c.target)
        else if ty = "end" then acc
        else if ty = "foreach" then acc
        else (acc.1 ++ [c.target], acc.2)
      else acc)
    ([], el0)

/-- The BFS `while queue:` loop.  Fuel is structural; the caller passes
`(|conns|+1)^2 + 1`, enough because every queued id is the start node or
some connection's target, an id is expanded at most once (the `visited`
check), and each expansion enqueues at most `|conns|` ids. -/
def bfsLoop (nodes : List (String × NodeData)) (conns : List Conn) :
    Nat → List String → List String → List String → Option String →
    List String × Option String
  | 0, _, _, downstream, el => (downstream, el)
  | _ + 1, [], _, downstream, el => (downstream, el)
  | fuel + 1, cur :: rest, visited, downstream, el =>
    if cur ∈ visited then bfsLoop nodes conns fuel rest visited downstream el
    else
      let visited' := visited ++ [cur]
      let p := bfsTargets nodes conns cur visited' el
      bfsLoop nodes conns fuel (rest ++ p.1) visited' (downstream ++ p.1) p.2

/-- `find_downstream_nodes` (src lines 1915-1956). -/
def find_downstream_nodes (foreach_node_id : String) (nodes : List (String × NodeData))
    (conns : List Conn) : List String :=
  let p := bfsLoop nodes conns ((conns.length + 1) * (conns.length + 1) + 1)
    [foreach_node_id] [] [] none
  p.1 ++ (match p.2 with | some e => [e] | none => [])

/-! ### Sub-workflow runner

`execute_sub_workflow` (src lines 1959-2139): runs an ordered list of body
node ids with a seed input, threading outputs locally. -/

/-- `r.get(k)` on a mapping value (`null` when missing or not a mapping;
the runner only applies it to mappings it built). -/
def vGet (v : Value) (k : String) : Value :=
  match v with
  | .obj fs => (lookupField fs k).getD .null
  | _ => .null

/-- Option-to-value for `result.get('error')` style fields. -/
def optStrVal : Option String → Value
  | some s => .str s
  | none => .null

/-- Executor dispatch inside the sub-workflow runner (src lines 2010-2058):
note there is no `start`/`end`/`foreach` branch here, and `endloop` is a
pass-through. -/
def sub_dispatch (fx : Effects) (nd : NodeData) (input : Value) : Outcome :=
  match nd.type with
  | "python" => execute_python_code (fx.python (nd.code.getD pythonDefaultCode) input) input
  | "typescript" => fx.typescript (nd.code.getD tsDefaultCode) input
  | "http" => fx.http nd.config input
  | "file" => fx.file nd.config input
  | "condition" => execute_conditional_logic nd.config input
  | "database" => fx.database nd.config input
  | "llm" => fx.llm nd.config input
  | "markdown" => fx.markdown nd.config input
  | "html" => fx.html nd.config input
  | "json" => fx.jsonViewer nd.config input
  | "embedding" => fx.embedding nd.config input
  | "endloop" =>
    { status := "success", output := input, stdout := "EndLoop node reached" }
  | t =>
    { status := "error", output := .null,
      error := some ("Unknown node type in sub-workflow: " ++ t) }

/-- Input resolution inside the sub-workflow (src lines 1978-1985): the
first connection (in insertion order) whose target is this node and whose
source already has a local output wins; otherwise the running input. -/
def sub_resolve_input (conns : List Conn) (localOut : List (String × Value))
    (nid : String) (current : Value) : Value :=
  match conns.find? (fun c => c.target = nid && (lookupField localOut c.source).isSome) with
  | some c => (lookupField localOut c.source).getD current
  | none => current

/-- One step of the `for key in ['route', 'action', 'priority']:` loop of
the sub-workflow runner (src lines 2093-2095): copy `key` from the input
fields when present there and absent in the accumulated output. -/
def metaStep (ifs acc : List (String × Value)) (k : String) : List (String × Value) :=
  match lookupField ifs k with
  | some v => if (lookupField acc k).isNone then acc ++ [(k, v)] else acc
  | none => acc

/-- Metadata preservation after each body node (src lines 2083-2095): when
input and output are both mappings, `_workflow_context` is copied from the
input unconditionally (`{**output, ...}` overwrites), while `route`,
`action`, `priority` are copied only when absent in the output. -/
def preserve_metadata (input_data output : Value) : Value :=
  match output, input_data with
  | .obj ofs, .obj ifs =>
    let o1 := match lookupField ifs "_workflow_context" with
      | some ctx => objSet ofs "_workflow_context" ctx
      | none => ofs
    .obj (["route", "action", "priority"].foldl (metaStep ifs) o1)
  | _, _ => output

/-- Per-node record appended to `node_executions` (src lines 2063-2073,
minus the unmodelled `execution_time`). -/
def execEntry (nid title ty : String) (r : Outcome) : Value :=
  .obj [("node_id", .str nid), ("node_title", .str title), ("node_type", .str ty),
        ("status", .str r.status), ("output", r.output), ("error", optStrVal r.error),
        ("stdout", .str r.stdout), ("stderr", .str r.stderr)]

/-- Result of the sub-workflow runner (the dict literals of src lines
2075-2081 and 2120-2139). -/
structure SubResult where
  status : String
  output : Value
  error : Option String := none
  node_executions : List Value := []
deriving Repr

/-- The `for node_id in node_ids:` loop of `execute_sub_workflow`.
Returns either the error early-exit payload or the final
`(current_input, local_outputs, node_executions)` state. -/
def subRun (fx : Effects) (nodes : List (String × NodeData)) (conns : List Conn) :
    List String → Value → List (String × Value) → List Value →
    Except (Option String × List Value) (Value × List (String × Value) × List Value)
  | [], current, localOut, execs => .ok (current, localOut, execs)
  | nid :: rest, current, localOut, execs =>
    let nd := (lookupNode nodes nid).getD {}
    let title := nd.title.getD nid
    let input := sub_resolve_input conns localOut nid current
    if nd.skipDuringExecution then
      let execs' := execs ++ [Value.obj [("node_id", .str nid), ("node_type", .str nd.type),
                                         ("status", .str "skipped")]]
      subRun fx nodes conns rest input (objSet localOut nid input) execs'
    else
      let result := sub_dispatch fx nd input
      let execs' := execs ++ [execEntry nid title nd.type result]
      if result.status = "error" then .error (result.error, execs')
      else
        let out := preserve_metadata input result.output
        subRun fx nodes conns rest out (objSet localOut nid out) execs'

/-- `execute_sub_workflow` (src lines 1959-2139). -/
def execute_sub_workflow (fx : Effects) (node_ids : List String)
    (nodes : List (String × NodeData)) (conns : List Conn) (starting_input : Value) :
    SubResult :=
  match subRun fx nodes conns node_ids starting_input [] [] with
  | .error p => { status := "error", output := .null, error := p.1, node_executions := p.2 }
  | .ok s =>
    match node_ids.getLast? with
    | some last =>
      { status := "success", output := (lookupField s.2.1 last).getD s.1,
        node_executions := s.2.2 }
    | none => { status := "success", output := starting_input, node_executions := [] }

/-! ### ForEach / EndLoop coordinator

`execute_foreach_loop` (src lines 2142-2354) and `execute_endloop_node`
(src lines 2357-2399). -/

/-- Iteration-set resolution (src lines 2156-2180): the input list itself;
else the list under the configured `items_key` of a mapping input; any
*empty* result of those (Python `if not items:`) falls back to
`config.items` (default `[]`). -/
def foreach_items (config : List (String × Value)) (input_data : Value) : Value :=
  let items_key := cfgGet config "items_key" (.str "items")
  let items0 : List Value :=
    match input_data with
    | .arr xs => xs
    | .obj fs =>
      (match items_key with
       | .str k =>
         (match lookupField fs k with
          | some (.arr xs) => xs
          | _ => [])
       | _ => [])
    | _ => []
  if items0.isEmpty then cfgGet config "items" (.arr []) else .arr items0

/-- Per-iteration input shaping (src lines 2246-2252): a mapping item under
a mapping loop input gets the loop input attached as `_workflow_context`. -/
def iteration_input (item input_data : Value) : Value :=
  match item, input_data with
  | .obj ifs, .obj _ => .obj (objSet ifs "_workflow_context" input_data)
  | _, _ => item

/-- One loop iteration (src lines 2241-2282): run the body as a
sub-workflow and package the iteration outcome record. -/
def execute_iteration (fx : Effects) (nodes : List (String × NodeData)) (conns : List Conn)
    (sub_ids : List String) (input_data : Value) (item : Value) : Value :=
  let result := execute_sub_workflow fx sub_ids nodes conns (iteration_input item input_data)
  .obj [("item", item), ("output", result.output), ("status", .str result.status),
        ("error", optStrVal result.error), ("node_executions", .arr result.node_executions)]

/-- A foreach outcome together with the `endloop_node_id` the Python dict
carries for the scheduler (absent on the early-return paths). -/
structure ForeachOut where
  outcome : Outcome
  endloop_node_id : Option String := none
deriving Repr

/-- `execute_foreach_loop` (src lines 2142-2354).  Serial and parallel
modes produce the same ordered result list (``asyncio.gather`` preserves
task order and the model's iterations are pure in the oracle environment),
so `execution_mode`/`max_concurrency` do not appear. -/
def execute_foreach_loop (fx : Effects) (config : List (String × Value)) (input_data : Value)
    (foreach_node_id : String) (nodes : List (String × NodeData)) (conns : List Conn) :
    ForeachOut :=
  match foreach_items config input_data with
  | .arr [] =>
    let oc : Outcome :=
      { status := "success",
        output := .obj [("results", .arr []), ("total", .int 0),
                        ("successful", .int 0), ("failed", .int 0)],
        stdout := "ForEach loop executed with empty array" }
    { outcome := oc }
  | .arr items =>
    let downstream := find_downstream_nodes foreach_node_id nodes conns
    let endloop_node_id := downstream.foldl
      (fun acc nid => if nodeTypeOf nodes nid = "endloop" then some nid else acc) none
    let sub_ids := downstream.filter (fun nid => nodeTypeOf nodes nid ≠ "endloop")
    if downstream.isEmpty then
      let oc : Outcome :=
        { status := "success",
          output := .obj
            [("results", .arr (items.map (fun item =>
                .obj [("item", item), ("output", item),
                      ("status", .str "success"), ("error", .null)]))),
             ("total", .int items.length), ("successful", .int items.length),
             ("failed", .int 0)],
          stdout := "ForEach loop executed with no downstream nodes" }
      { outcome := oc }
    else
      let nodes_to_execute := if endloop_node_id.isSome then sub_ids else downstream
      let results := items.map (execute_iteration fx nodes conns nodes_to_execute input_data)
      let successful := (results.filter (fun r => isStrV (vGet r "status") "success")).length
      let failed := results.length - successful
      let aggregated := (results.filter
          (fun r => isStrV (vGet r "status") "success" && ! isNullV (vGet r "output"))).map
        (fun r => vGet r "output")
      let foreach_output : Value :=
        match endloop_node_id with
        | some _ =>
          .obj [("results", .arr results), ("total", .int results.length),
                ("successful", .int successful), ("failed", .int failed),
                ("aggregated_outputs", .arr aggregated), ("items", .arr items)]
        | none =>
          .obj [("results", .arr results), ("total", .int results.length),
                ("successful", .int successful), ("failed", .int failed)]
      let oc : Outcome :=
        { status := "success", output := foreach_output,
          stdout := "ForEach loop executed " ++ toString results.length ++ " iterations ("
            ++ toString successful ++ " successful, " ++ toString failed ++ " failed)" }
      { outcome := oc, endloop_node_id := endloop_node_id }
  | other =>
    let oc : Outcome :=
      { status := "error", output := .null,
        error := some ("ForEach node requires an array. Got: " ++ pyTypeName other) }
    { outcome := oc }

/-- Python `len(v)` (`none` models the `TypeError` for unsized values,
which the endloop executor's `except` turns into an error outcome). -/
def pyLen : Value → Option Nat
  | .str s => some s.length
  | .arr xs => some xs.length
  | .obj fs => some fs.length
  | _ => none

/-- `execute_endloop_node` (src lines 2357-2399): re-reads `results`,
`aggregated_outputs` and `items` from the aggregation mapping and
*recomputes* `successful`/`failed` from the lengths.  The exception text of
the error path is abstracted. -/
def execute_endloop_node (input_data : Value) : Outcome :=
  match input_data with
  | .obj fs =>
    let ag := (lookupField fs "aggregated_outputs").getD (.arr [])
    let results := (lookupField fs "results").getD (.arr [])
    let items := (lookupField fs "items").getD (.arr [])
    match pyLen results, pyLen ag with
    | some lr, some la =>
      { status := "success",
        output := .obj [("results", results), ("aggregated_outputs", ag), ("items", items),
                        ("total", .int lr), ("successful", .int la),
                        ("failed", .int ((lr : Int) - (la : Int)))],
        stdout := "EndLoop aggregated " ++ toString la ++ " successful results from "
          ++ toString lr ++ " iterations" }
    | _, _ =>
      { status := "error", output := .null, stderr := "TypeError",
        error := some "EndLoop execution failed: TypeError" }
  | _ =>
    { status := "success", output := input_data, stdout := "EndLoop passed through input" }

/-! ### Top-level scheduler

`run_workflow` (src lines 2402-2748): topological order, foreach-body
masking, per-node input resolution, dispatch, stop at the first error, and
response assembly. -/

/-- Trace entry recorded for an executed node (src lines 2670-2678, minus
the unmodelled `execution_time`). -/
structure NodeResult where
  id : String
  status : String
  output : Value
  stdout : String := ""
  stderr : String := ""
  error : Option String := none
deriving Repr

/-- Response of `run_workflow` (`total_time` is the unmodelled wall clock;
the byte-string base64 pass is the identity on the byte-free values of this
model and is omitted). -/
structure RunResult where
  status : String
  nodes : List NodeResult
  error : Option String := none
deriving Repr

/-- The predecessor scan of src lines 2486-2493: connections targeting this
node whose source already has a recorded output, in connection insertion
order. -/
def potential_sources (conns : List Conn) (outputs : List (String × Value))
    (nid : String) : List (String × Value) :=
  conns.foldl
    (fun acc c =>
      if c.target = nid then
        match lookupField outputs c.source with
        | some v => acc ++ [(c.source, v)]
        | none => acc
      else acc)
    []

/-- Does a recorded output look like a foreach feed (a mapping containing
an `items` key)?  (src line 2501). -/
def hasItemsKey (v : Value) : Bool :=
  match v with
  | .obj fs => (lookupField fs "items").isSome
  | _ => false

/-- Input resolution for a top-level node (src lines 2482-2522).
`input_data` starts as `{}`; with several recorded predecessors a `foreach`
prefers the first whose output has an `items` key, every other node takes
the first recorded predecessor; finally Python's `if not input_data:`
replaces any falsy choice by `{}`. -/
def resolve_node_input (conns : List Conn) (outputs : List (String × Value))
    (node_type : String) (nid : String) : Value :=
  let ps := potential_sources conns outputs nid
  let input0 : Value :=
    if 1 < ps.length then
      if node_type = "foreach" then
        let afterLoop : Value :=
          match ps.find? (fun sv => hasItemsKey sv.2) with
          | some sv => sv.2
          | none => .obj []
        if afterLoop.truthy then afterLoop
        else ((ps.head?.map Prod.snd).getD (.obj []))
      else ((ps.head?.map Prod.snd).getD (.obj []))
    else
      match ps with
      | [(_, v)] => v
      | _ => .obj []
  if input0.truthy then input0 else .obj []

/-- Length of the `aggregated_outputs` list of a foreach aggregation, used
in the scheduler's stdout augmentation (src line 2617). -/
def aggLen (v : Value) : Nat :=
  match vGet v "aggregated_outputs" with
  | .arr xs => xs.length
  | _ => 0

/-- Top-level dispatch (src lines 2550-2667).  Besides the outcome it
returns the outputs map, which the `foreach` branch extends with the
endloop's output (src lines 2602-2617). -/
def top_step (fx : Effects) (nodes : List (String × NodeData)) (conns : List Conn)
    (nid : String) (nd : NodeData) (input : Value) (outputs : List (String × Value)) :
    Outcome × List (String × Value) :=
  match nd.type with
  | "start" =>
    ({ status := "success", output := .obj [("message", .str "Workflow started")],
       stdout := "Start node executed successfully" }, outputs)
  | "end" =>
    ({ status := "success", output := input,
       stdout := "End node executed successfully" }, outputs)
  | "python" =>
    (execute_python_code (fx.python (nd.code.getD pythonDefaultCode) input) input, outputs)
  | "typescript" => (fx.typescript (nd.code.getD tsDefaultCode) input, outputs)
  | "http" => (fx.http nd.config input, outputs)
  | "file" => (fx.file nd.config input, outputs)
  | "condition" => (execute_conditional_logic nd.config input, outputs)
  | "database" => (fx.database nd.config input, outputs)
  | "llm" => (fx.llm nd.config input, outputs)
  | "foreach" =>
    let fr := execute_foreach_loop fx nd.config input nid nodes conns
    (match fr.endloop_node_id with
     | some eid =>
       if (lookupNode nodes eid).isSome then
         let er := execute_endloop_node fr.outcome.output
         let oc : Outcome :=
           { fr.outcome with
             output := er.output,
             stdout := fr.outcome.stdout ++ " | EndLoop aggregated "
               ++ toString (aggLen fr.outcome.output) ++ " results" }
         (oc, objSet outputs eid er.output)
       else (fr.outcome, outputs)
     | none => (fr.outcome, outputs))
  | "endloop" =>
    (match lookupField outputs nid with
     | some stored =>
       let oc : Outcome :=
         { status := "success", output := stored,
           stdout := "EndLoop already executed by ForEach" }
       (oc, outputs)
     | none =>
       let oc : Outcome :=
         { status := "error", output := .null,
           stderr := "EndLoop node executed outside of ForEach context",
           error := some "EndLoop node must be connected from a ForEach loop" }
       (oc, outputs))
  | "markdown" => (fx.markdown nd.config input, outputs)
  | "html" => (fx.html nd.config input, outputs)
  | "json" => (fx.jsonViewer nd.config input, outputs)
  | "embedding" => (fx.embedding nd.config input, outputs)
  | t =>
    ({ status := "error", output := .null,
       error := some ("Unknown node type: " ++ t) }, outputs)

/-- The main `for node_id in execution_order:` loop (src lines 2469-2686):
skip ids missing from the node map, skip foreach-masked nodes, honour
`skipDuringExecution` (recorded, no error check), otherwise dispatch,
record, and stop at the first error-status outcome. -/
def run_loop (fx : Effects) (nodes : List (String × NodeData)) (conns : List Conn)
    (skips : List String) :
    List String → List NodeResult → List (String × Value) → List NodeResult
  | [], results, _ => results
  | nid :: rest, results, outputs =>
    match lookupNode nodes nid with
    | none => run_loop fx nodes conns skips rest results outputs
    | some nd =>
      if nid ∈ skips then run_loop fx nodes conns skips rest results outputs
      else
        let input := resolve_node_input conns outputs nd.type nid
        if nd.skipDuringExecution then
          let nr : NodeResult :=
            { id := nid, status := "success", output := input,
              stdout := "Node \"" ++ nd.title.getD nid
                ++ "\" skipped during execution (input passed through)" }
          run_loop fx nodes conns skips rest (results ++ [nr]) (objSet outputs nid input)
        else
          let p := top_step fx nodes conns nid nd input outputs
          let nr : NodeResult :=
            { id := nid, status := p.1.status, output := p.1.output,
              stdout := p.1.stdout, stderr := p.1.stderr, error := p.1.error }
          if p.1.status = "error" then results ++ [nr]
          else run_loop fx nodes conns skips rest (results ++ [nr])
            (objSet p.2 nid p.1.output)

/-- Foreach-body masking (src lines 2460-2466): every node downstream of
some foreach executes inside that foreach and is skipped at top level. -/
def masked_nodes (nodes : List (String × NodeData)) (conns : List Conn) : List String :=
  nodes.foldl
    (fun acc p =>
      if p.2.type = "foreach" then acc ++ find_downstream_nodes p.1 nodes conns else acc)
    []

/-- Response assembly (src lines 2688-2703): the first error-status trace
entry makes the overall status `error` with the failing node named. -/
def assemble_response (results : List NodeResult) : RunResult :=
  match results.find? (fun r => r.status == "error") with
  | some r =>
    { status := "error", nodes := results,
      error := some ("Node " ++ r.id ++ " failed: " ++ r.error.getD "None") }
  | none => { status := "success", nodes := results }

/-- `run_workflow` (src lines 2402-2748). -/
def run_workflow (fx : Effects) (nodes : List (String × NodeData)) (conns : List Conn) :
    RunResult :=
  assemble_response
    (run_loop fx nodes conns (masked_nodes nodes conns)
      (topological_sort_nodes fx.setEnum (nodes.map Prod.fst) conns) [] [])

/-! ### Concrete scenarios used by the claim theorems -/

/-- Config of spec scenario 2 (conditional routing). -/
def c8config : List (String × Value) :=
  [("conditions", .arr [.obj
      [("condition", .obj [("field", .str "score"), ("operator", .str ">="),
                           ("value", .str "70")]),
       ("output", .obj [("route", .str "high")])]]),
   ("default", .obj [("route", .str "low")])]

/-- Input of spec scenario 2. -/
def c8input : Value := .obj [("score", .int 80)]

/-- Expected output of spec scenario 2, keys in the spec's order. -/
def c8expected : Value :=
  .obj [("result", .obj [("route", .str "high")]), ("matched_condition", .int 0),
        ("route", .str "high"), ("input", .obj [("score", .int 80)]),
        ("condition_type", .str "if")]

/-- A foreach whose body is one skipped node followed by an endloop. -/
def c1nodes : List (String × NodeData) :=
  [("f", { type := "foreach" }),
   ("b", { type := "python", skipDuringExecution := true }),
   ("el", { type := "endloop" })]

/-- Wiring `f → b → el`. -/
def c1conns : List Conn := [⟨"f", "b"⟩, ⟨"b", "el"⟩]

/-- The foreach of `c1nodes` run on the one-item input `[None]`: the single
iteration succeeds with output `None`. -/
def c1run : ForeachOut :=
  execute_foreach_loop trivialEffects [] (.arr [.null]) "f" c1nodes c1conns

/-- A foreach config with a non-empty `config.items` fallback. -/
def c4cfg : List (String × Value) := [("items", .arr [.int 1])]

/-- A lone foreach node carrying `c4cfg`. -/
def c4nodes : List (String × NodeData) := [("f", { type := "foreach", config := c4cfg })]

/-- One recorded predecessor whose whole output is Python `None`. -/
def c5outputs : List (String × Value) := [("a", Value.null)]

/-- The single connection `a → b`. -/
def c5conns : List Conn := [⟨"a", "b"⟩]

/-- A workflow consisting of one node of unknown type. -/
def c6nodes : List (String × NodeData) := [("u", { type := "mystery" })]

/-- The trace entry the scheduler records for the unknown-type node. -/
def c6entry : NodeResult :=
  { id := "u", status := "error", output := .null,
    error := some "Unknown node type: mystery" }

/-- Condition-node config whose default output carries its own
`_workflow_context` field. -/
def c7cfg : List (String × Value) :=
  [("conditions", .arr []), ("default", .obj [("_workflow_context", .int 2)])]

/-- A one-node body consisting of that condition node. -/
def c7nodes : List (String × NodeData) := [("c", { type := "condition", config := c7cfg })]

/-- Seed input already carrying a different `_workflow_context`. -/
def c7seed : Value := .obj [("_workflow_context", .int 1)]

/-! ## Claim theorems -/

/-- C8 (confirmed): a condition node with input `{score: 80}`, one clause
`score >= "70" → {route: "high"}` and default `{route: "low"}` succeeds and
produces exactly the mapping
`{result: {route: high}, matched_condition: 0, route: high, input: {score: 80}, condition_type: if}`
(Python dict equality, insertion order irrelevant): the digit string `"70"`
is promoted to an integer, the first matching clause wins, and the matched
mapping's keys are flattened to the top level. -/
theorem c8_condition_concrete :
    (execute_conditional_logic c8config c8input).status = "success" ∧
    Value.peq (execute_conditional_logic c8config c8input).output c8expected = true :=
  ⟨rfl, rfl⟩

/-- C3 (code_bug): the file-path "normalization" is a literal string-prefix
check, so the client path `/tmp/workflow_files/../../etc/passwd` passes
through verbatim and the filesystem resolves it to `/etc/passwd` — outside
the safe directory, contradicting the safety claim (and the `Security
check - restrict to safe paths` intent stated in the source). -/
theorem c3_file_path_escape :
    normalize_file_path "/tmp/workflow_files/../../etc/passwd"
      = "/tmp/workflow_files/../../etc/passwd" ∧
    resolvedComponents (normalize_file_path "/tmp/workflow_files/../../etc/passwd")
      = ["etc", "passwd"] ∧
    withinSafeRoot (normalize_file_path "/tmp/workflow_files/../../etc/passwd") = false ∧
    withinSafeRoot (normalize_file_path "data/report.txt") = true :=
  ⟨rfl, rfl, rfl, rfl⟩

/-- C9 (confirmed): python code that compiles and executes without raising
but defines no `run` function yields a success outcome whose output is the
node's input unchanged. -/
theorem c9_python_no_run (input : Value) (out err : String) :
    (execute_python_code (PyEval.noRun out err) input).status = "success" ∧
    (execute_python_code (PyEval.noRun out err) input).output = input ∧
    (execute_python_code (PyEval.noRun out err) input).error = none :=
  ⟨rfl, rfl, rfl⟩

/-- C1 counterexample: for the foreach `f → (skipped body) → el` on the
iteration set `[None]`, the single iteration is successful with output
`None`, so the aggregation reports `successful = 1` while
`aggregated_outputs` is empty (the `is not None` filter drops it) — the
claim's "aggregated_outputs has exactly `successful` entries" fails — and
the endloop recomputes `successful = 0`, `failed = 1`, disagreeing with the
foreach's `successful = 1`, `failed = 0`. -/
theorem c1_counterexample :
    c1run.endloop_node_id = some "el" ∧
    vGet c1run.outcome.output "successful" = .int 1 ∧
    vGet c1run.outcome.output "failed" = .int 0 ∧
    vGet c1run.outcome.output "aggregated_outputs" = .arr [] ∧
    vGet (execute_endloop_node c1run.outcome.output).output "successful" = .int 0 ∧
    vGet (execute_endloop_node c1run.outcome.output).output "failed" = .int 1 :=
  ⟨rfl, rfl, rfl, rfl, rfl, rfl⟩

/-- C4 counterexample: with config `{items: [1]}` and the *empty sequence*
as input, the loop iterates over `[1]` (Python's `if not items:` sends the
empty input sequence to the `config.items` fallback) and reports
`total = 1` — not the claimed "iteration set is exactly that sequence" and
"empty input sequence yields total=0". -/
theorem c4_counterexample :
    foreach_items c4cfg (.arr []) = .arr [.int 1] ∧
    vGet (execute_foreach_loop trivialEffects c4cfg (.arr []) "f" c4nodes []).outcome.output
      "total" = .int 1 :=
  ⟨rfl, rfl⟩

/-- C5 counterexample: node `b`'s only predecessor `a` has the recorded
output `None`; the claim says `b`'s input is that whole output, but the
scheduler's final `if not input_data:` replaces every falsy choice by `{}`,
so `b` receives the empty mapping instead of `None`. -/
theorem c5_counterexample :
    lookupField c5outputs "a" = some Value.null ∧
    resolve_node_input c5conns c5outputs "end" "b" = .obj [] ∧
    Value.obj [] ≠ Value.null :=
  ⟨rfl, rfl, fun h => Value.noConfusion h⟩

/-- C7 counterexample: the condition body node's own output carries
`_workflow_context = 2`, and the iteration input carries
`_workflow_context = 1`; the claim says a field already present in the
output is left unchanged, but the runner's `{**output, '_workflow_context':
input[...]}` overwrites it with the input's value `1`. -/
theorem c7_counterexample :
    vGet (execute_conditional_logic c7cfg c7seed).output "_workflow_context" = .int 2 ∧
    vGet (execute_sub_workflow trivialEffects ["c"] c7nodes [] c7seed).output
      "_workflow_context" = .int 1 :=
  ⟨rfl, rfl⟩

/-- C10 (confirmed): when body discovery finds no downstream nodes, the
foreach returns a success outcome with one result per item, each carrying
the item itself as output and status `success`, with
`total = successful = |items|` and `failed = 0` (and no endloop handoff). -/
theorem c10_foreach_no_downstream (fx : Effects) (config : List (String × Value))
    (input : Value) (fid : String) (nodes : List (String × NodeData)) (conns : List Conn)
    (x : Value) (xs : List Value)
    (hitems : foreach_items config input = .arr (x :: xs))
    (hdown : find_downstream_nodes fid nodes conns = []) :
    execute_foreach_loop fx config input fid nodes conns =
      ⟨⟨"success",
        Value.obj
          [("results", .arr ((x :: xs).map (fun item =>
              Value.obj [("item", item), ("output", item), ("status", .str "success"),
                         ("error", .null)]))),
           ("total", .int (x :: xs).length), ("successful", .int (x :: xs).length),
           ("failed", .int 0)],
        "ForEach loop executed with no downstream nodes", "", none⟩, none⟩ := by
  unfold execute_foreach_loop
  rw [hitems, hdown]
  simp

theorem c10_witness :
    foreach_items [] (.arr [.int 7]) = .arr [.int 7] ∧
    find_downstream_nodes "f" [("f", { type := "foreach" })] [] = [] ∧
    execute_foreach_loop trivialEffects [] (.arr [.int 7]) "f"
        [("f", { type := "foreach" })] [] =
      ⟨⟨"success",
        Value.obj
          [("results", .arr [Value.obj [("item", .int 7), ("output", .int 7),
              ("status", .str "success"), ("error", .null)]]),
           ("total", .int 1), ("successful", .int 1), ("failed", .int 0)],
        "ForEach loop executed with no downstream nodes", "", none⟩, none⟩ :=
  ⟨rfl, rfl, c10_foreach_no_downstream trivialEffects [] (.arr [.int 7]) "f"
    [("f", { type := "foreach" })] [] (.int 7) [] rfl rfl⟩

/-! ### Association-list lemmas -/

theorem lookupField_append (xs ys : List (String × Value)) (k : String) :
    lookupField (xs ++ ys) k =
      (match lookupField xs k with
       | some v => some v
       | none => lookupField ys k) := by
  induction xs with
  | nil => rfl
  | cons p rest ih =>
    by_cases h : p.1 = k <;> simp [lookupField, h, ih]

theorem lookupField_map_set_self (fs : List (String × Value)) (k : String) (v : Value) :
    lookupField (fs.map (fun kv => if kv.1 = k then (k, v) else kv)) k
      = if (lookupField fs k).isSome then some v else none := by
  induction fs with
  | nil => rfl
  | cons p rest ih =>
    cases p with
    | mk k1 v1 =>
      by_cases h : k1 = k
      · subst h
        simp only [List.map_cons]
        simp [lookupField]
      · simp only [List.map_cons]
        rw [show ((if (k1, v1).1 = k then (k, v) else (k1, v1)) = (k1, v1)) from if_neg h]
        simp [lookupField, h, ih]

theorem lookupField_map_set_ne (fs : List (String × Value)) (k : String) (v : Value)
    (k' : String) (h : k ≠ k') :
    lookupField (fs.map (fun kv => if kv.1 = k then (k, v) else kv)) k'
      = lookupField fs k' := by
  induction fs with
  | nil => rfl
  | cons p rest ih =>
    cases p with
    | mk k1 v1 =>
      simp only [List.map_cons]
      by_cases h1 : k1 = k
      · subst h1
        rw [show ((if (k1, v1).1 = k1 then (k1, v) else (k1, v1)) = (k1, v)) from if_pos rfl]
        simp [lookupField, h, ih]
      · rw [show ((if (k1, v1).1 = k then (k, v) else (k1, v1)) = (k1, v1)) from if_neg h1]
        by_cases h2 : k1 = k' <;> simp [lookupField, h1, h2, ih]

theorem lookupField_objSet_self (fs : List (String × Value)) (k : String) (v : Value) :
    lookupField (objSet fs k v) k = some v := by
  unfold objSet
  by_cases h : (lookupField fs k).isSome
  · simp [h, lookupField_map_set_self]
  · simp [h, lookupField_append]
    cases hc : lookupField fs k with
    | some w => simp [hc] at h
    | none => simp [lookupField]

theorem lookupField_objSet_ne (fs : List (String × Value)) (k : String) (v : Value)
    (k' : String) (h : k ≠ k') :
    lookupField (objSet fs k v) k' = lookupField fs k' := by
  unfold objSet
  by_cases hs : (lookupField fs k).isSome
  · simp [hs, lookupField_map_set_ne fs k v k' h]
  · simp [hs, lookupField_append]
    cases hc : lookupField fs k' with
    | some w => simp
    | none => simp [lookupField, h]

/-- A mapping output containing an `items` key is truthy. -/
theorem truthy_of_hasItemsKey (v : Value) (h : hasItemsKey v = true) : v.truthy = true := by
  cases v <;> simp [hasItemsKey] at h
  case obj fs =>
    cases fs with
    | nil => simp [lookupField] at h
    | cons p rest => simp [Value.truthy]

/-- C4 (corrected, amended): iteration-set resolution as the code performs
it — a *non-empty* input sequence is the iteration set; a non-empty sequence
under the mapping input's `items_key` is the iteration set; any empty
derivation (including an empty input sequence) falls back to `config.items`
(default `[]`); an empty final resolution yields a success outcome with
`total = 0` and no endloop handoff; a non-sequence final resolution yields
an error outcome. -/
theorem c4_items_resolution (cfg : List (String × Value)) :
    (∀ x xs, foreach_items cfg (.arr (x :: xs)) = .arr (x :: xs)) ∧
    (foreach_items cfg (.arr []) = cfgGet cfg "items" (.arr [])) ∧
    (∀ fs k v vs, cfgGet cfg "items_key" (.str "items") = .str k →
        lookupField fs k = some (.arr (v :: vs)) →
        foreach_items cfg (.obj fs) = .arr (v :: vs)) ∧
    (∀ fx fid nodes conns input, foreach_items cfg input = .arr [] →
        (execute_foreach_loop fx cfg input fid nodes conns).outcome =
          ⟨"success",
           .obj [("results", .arr []), ("total", .int 0), ("successful", .int 0),
                 ("failed", .int 0)],
           "ForEach loop executed with empty array", "", none⟩ ∧
        (execute_foreach_loop fx cfg input fid nodes conns).endloop_node_id = none) ∧
    (∀ fx fid nodes conns input v, foreach_items cfg input = v → (∀ ys, v ≠ .arr ys) →
        (execute_foreach_loop fx cfg input fid nodes conns).outcome.status = "error") := by
  refine ⟨?_, ?_, ?_, ?_, ?_⟩
  · intro x xs
    simp [foreach_items]
  · rfl
  · intro fs k v vs h1 h2
    have h1' : (lookupField cfg "items_key").getD (.str "items") = .str k := by
      simpa [cfgGet] using h1
    simp [foreach_items, cfgGet, h1', h2]
  · intro fx fid nodes conns input h
    unfold execute_foreach_loop
    rw [h]
    exact ⟨rfl, rfl⟩
  · intro fx fid nodes conns input v h hne
    unfold execute_foreach_loop
    rw [h]
    cases v with
    | arr ys => exact absurd rfl (hne ys)
    | null => rfl
    | bool b => rfl
    | int n => rfl
    | float m e => rfl
    | str s => rfl
    | obj fs => rfl

/-- C5 (corrected, amended): input resolution for a top-level node — no
recorded predecessor gives the empty mapping; one recorded predecessor
gives its whole output unless that output is falsy, in which case the empty
mapping is substituted; with several recorded predecessors a non-foreach
node takes the first (same falsy caveat); a foreach prefers the first
predecessor whose mapping output has an `items` key (used as is — such an
output is always truthy), falling back to the first predecessor (same falsy
caveat). -/
theorem c5_input_resolution :
    (∀ conns outputs ty nid, potential_sources conns outputs nid = [] →
        resolve_node_input conns outputs ty nid = .obj []) ∧
    (∀ conns outputs ty nid s v, potential_sources conns outputs nid = [(s, v)] →
        resolve_node_input conns outputs ty nid = (if v.truthy then v else .obj [])) ∧
    (∀ conns outputs ty nid s v p ps, ty ≠ "foreach" →
        potential_sources conns outputs nid = (s, v) :: p :: ps →
        resolve_node_input conns outputs ty nid = (if v.truthy then v else .obj [])) ∧
    (∀ conns outputs nid s v p ps s2 v2,
        potential_sources conns outputs nid = (s, v) :: p :: ps →
        ((s, v) :: p :: ps).find? (fun sv => hasItemsKey sv.2) = some (s2, v2) →
        resolve_node_input conns outputs "foreach" nid = v2) ∧
    (∀ conns outputs nid s v p ps,
        potential_sources conns outputs nid = (s, v) :: p :: ps →
        ((s, v) :: p :: ps).find? (fun sv => hasItemsKey sv.2) = none →
        resolve_node_input conns outputs "foreach" nid = (if v.truthy then v else .obj [])) := by
  refine ⟨?_, ?_, ?_, ?_, ?_⟩
  · intro conns outputs ty nid h
    simp [resolve_node_input, h]
  · intro conns outputs ty nid s v h
    by_cases ht : v.truthy <;> simp [resolve_node_input, h, ht]
  · intro conns outputs ty nid s v p ps hty h
    by_cases ht : v.truthy <;> simp [resolve_node_input, h, hty, ht]
  · intro conns outputs nid s v p ps s2 v2 h hfind
    have hitems : hasItemsKey v2 = true := by
      have := List.find?_some hfind
      simpa using this
    have htr := truthy_of_hasItemsKey v2 hitems
    simp [resolve_node_input, h, hfind, htr]
  · intro conns outputs nid s v p ps h hfind
    by_cases ht : v.truthy <;> simp [resolve_node_input, h, hfind, Value.truthy, ht]

/-- Lookup of the step's own key after one metadata step. -/
theorem metaStep_self (ifs acc : List (String × Value)) (k : String) :
    lookupField (metaStep ifs acc k) k =
      (match lookupField acc k with
       | some w => some w
       | none => lookupField ifs k) := by
  unfold metaStep
  cases hi : lookupField ifs k with
  | none => cases ha : lookupField acc k <;> simp [ha]
  | some v =>
    cases ha : lookupField acc k with
    | some w => simp [ha]
    | none =>
      simp [ha, lookupField_append]
      simp [lookupField]

/-- Lookup of any other key is unchanged by a metadata step. -/
theorem metaStep_ne (ifs acc : List (String × Value)) (k k' : String) (h : k ≠ k') :
    lookupField (metaStep ifs acc k) k' = lookupField acc k' := by
  unfold metaStep
  cases hi : lookupField ifs k with
  | none => rfl
  | some v =>
    cases ha : lookupField acc k with
    | some w => simp [ha]
    | none =>
      simp [ha, lookupField_append]
      cases hc : lookupField acc k' with
      | some w => simp
      | none => simp [lookupField, h]

/-- C7 (corrected, amended): after each executed body node with mapping
input and output, `_workflow_context` is copied from the input whenever the
input has it — *overwriting* any value already present in the output —
while `route`, `action` and `priority` are copied from the input only when
absent in the output (present values kept); all other fields are
unchanged. -/
theorem c7_metadata_preservation (ifs ofs : List (String × Value)) :
    ∃ gfs, preserve_metadata (.obj ifs) (.obj ofs) = .obj gfs ∧
      (∀ ctx, lookupField ifs "_workflow_context" = some ctx →
          lookupField gfs "_workflow_context" = some ctx) ∧
      (lookupField ifs "_workflow_context" = none →
          lookupField gfs "_workflow_context" = lookupField ofs "_workflow_context") ∧
      (∀ k, (k = "route" ∨ k = "action" ∨ k = "priority") →
          (∀ w, lookupField ofs k = some w → lookupField gfs k = some w) ∧
          (lookupField ofs k = none → lookupField gfs k = lookupField ifs k)) ∧
      (∀ k, k ≠ "_workflow_context" → k ≠ "route" → k ≠ "action" → k ≠ "priority" →
          lookupField gfs k = lookupField ofs k) := by
  unfold preserve_metadata
  set o1 := (match lookupField ifs "_workflow_context" with
    | some ctx => objSet ofs "_workflow_context" ctx
    | none => ofs) with ho1
  have h1wc : ∀ ctx, lookupField ifs "_workflow_context" = some ctx →
      lookupField o1 "_workflow_context" = some ctx := by
    intro ctx h
    rw [ho1, h]
    exact lookupField_objSet_self ofs _ ctx
  have h1wcn : lookupField ifs "_workflow_context" = none →
      lookupField o1 "_workflow_context" = lookupField ofs "_workflow_context" := by
    intro h
    rw [ho1, h]
  have h1ne : ∀ k, k ≠ "_workflow_context" → lookupField o1 k = lookupField ofs k := by
    intro k hk
    rw [ho1]
    cases h : lookupField ifs "_workflow_context" with
    | some ctx => exact lookupField_objSet_ne ofs _ ctx k (Ne.symm hk)
    | none => rfl
  refine ⟨_, rfl, ?_, ?_, ?_, ?_⟩
  · intro ctx h
    simp only [List.foldl]
    rw [metaStep_ne _ _ "priority" _ (by decide), metaStep_ne _ _ "action" _ (by decide),
        metaStep_ne _ _ "route" _ (by decide)]
    exact h1wc ctx h
  · intro h
    simp only [List.foldl]
    rw [metaStep_ne _ _ "priority" _ (by decide), metaStep_ne _ _ "action" _ (by decide),
        metaStep_ne _ _ "route" _ (by decide)]
    exact h1wcn h
  · intro k hk
    have hkwc : k ≠ "_workflow_context" := by
      rcases hk with h | h | h <;> subst h <;> decide
    constructor
    · intro w hw
      have ho1k : lookupField o1 k = some w := by rw [h1ne k hkwc]; exact hw
      rcases hk with h | h | h <;> subst h <;> simp only [List.foldl]
      · rw [metaStep_ne _ _ "priority" _ (by decide), metaStep_ne _ _ "action" _ (by decide),
            metaStep_self]
        simp [ho1k]
      · rw [metaStep_ne _ _ "priority" _ (by decide), metaStep_self,
            metaStep_ne _ _ "route" _ (by decide)]
        simp [ho1k]
      · rw [metaStep_self, metaStep_ne _ _ "action" _ (by decide),
            metaStep_ne _ _ "route" _ (by decide)]
        simp [ho1k]
    · intro hw
      have ho1k : lookupField o1 k = none := by rw [h1ne k hkwc]; exact hw
      rcases hk with h | h | h <;> subst h <;> simp only [List.foldl]
      · rw [metaStep_ne _ _ "priority" _ (by decide), metaStep_ne _ _ "action" _ (by decide),
            metaStep_self]
        simp [ho1k]
      · rw [metaStep_ne _ _ "priority" _ (by decide), metaStep_self,
            metaStep_ne _ _ "route" _ (by decide)]
        simp [ho1k]
      · rw [metaStep_self, metaStep_ne _ _ "action" _ (by decide),
            metaStep_ne _ _ "route" _ (by decide)]
        simp [ho1k]
  · intro k hwc hr ha hp
    simp only [List.foldl]
    rw [metaStep_ne _ _ "priority" _ (Ne.symm hp), metaStep_ne _ _ "action" _ (Ne.symm ha),
        metaStep_ne _ _ "route" _ (Ne.symm hr)]
    exact h1ne k hwc

/-- C1 (corrected, amended): whenever a foreach hands off to a reachable
endloop, the aggregation satisfies: one result per item of the resolved
iteration set; `total = |results| = |I|`; `successful` counts the
success-status iterations and `failed` the rest (`successful + failed =
total`); `aggregated_outputs` is, in order, the outputs of the successful
iterations *whose output is not `None`* (so it can be shorter than
`successful`); and the endloop's output carries the same `results`,
`aggregated_outputs` and `total`, but recomputes `successful` as
`|aggregated_outputs|` and `failed` as `total - |aggregated_outputs|`. -/
theorem c1_aggregation (fx : Effects) (cfg : List (String × Value)) (input : Value)
    (fid eid : String) (nodes : List (String × NodeData)) (conns : List Conn)
    (h : (execute_foreach_loop fx cfg input fid nodes conns).endloop_node_id = some eid) :
    ∃ (items : List Value) (results : List Value),
      foreach_items cfg input = .arr items ∧
      results.length = items.length ∧
      (let out := (execute_foreach_loop fx cfg input fid nodes conns).outcome.output
       let successful := (results.filter (fun r => isStrV (vGet r "status") "success")).length
       let aggregated := (results.filter (fun r =>
           isStrV (vGet r "status") "success" && ! isNullV (vGet r "output"))).map
         (fun r => vGet r "output")
       vGet out "results" = .arr results ∧
       vGet out "items" = .arr items ∧
       vGet out "total" = .int results.length ∧
       vGet out "successful" = .int successful ∧
       vGet out "failed" = .int (results.length - successful) ∧
       successful + (results.length - successful) = results.length ∧
       vGet out "aggregated_outputs" = .arr aggregated ∧
       (execute_endloop_node out).status = "success" ∧
       vGet (execute_endloop_node out).output "total" = .int results.length ∧
       vGet (execute_endloop_node out).output "successful" = .int aggregated.length ∧
       vGet (execute_endloop_node out).output "failed"
         = .int ((results.length : Int) - (aggregated.length : Int)) ∧
       vGet (execute_endloop_node out).output "aggregated_outputs" = .arr aggregated ∧
       vGet (execute_endloop_node out).output "results" = .arr results) := by
  unfold execute_foreach_loop at h ⊢
  cases hi : foreach_items cfg input with
  | arr items =>
    cases items with
    | nil => rw [hi] at h; simp at h
    | cons x xs =>
      rw [hi] at h
      by_cases hd : (find_downstream_nodes fid nodes conns).isEmpty
      · simp only [hd, if_true] at h
        simp at h
      · simp only [hd, if_false] at h ⊢
        cases hel : (find_downstream_nodes fid nodes conns).foldl
            (fun acc nid => if nodeTypeOf nodes nid = "endloop" then some nid else acc)
            none with
        | none => simp only [hel] at h; simp at h
        | some e =>
          simp only [hel] at h ⊢
          refine ⟨x :: xs,
            (x :: xs).map (execute_iteration fx nodes conns
              (if ((some e : Option String)).isSome then
                (find_downstream_nodes fid nodes conns).filter
                  (fun nid => nodeTypeOf nodes nid ≠ "endloop")
              else find_downstream_nodes fid nodes conns) input),
            rfl, by simp, ?_, ?_, ?_, ?_, ?_, ?_, ?_, ?_, ?_, ?_, ?_, ?_, ?_⟩
          · simp [vGet, lookupField]
          · simp [vGet, lookupField]
          · simp [vGet, lookupField]
          · simp [vGet, lookupField]
          · have hle := List.length_filter_le
              (fun r => isStrV (vGet r "status") "success")
              ((x :: xs).map (execute_iteration fx nodes conns
                (if ((some e : Option String)).isSome then
                  (find_downstream_nodes fid nodes conns).filter
                    (fun nid => nodeTypeOf nodes nid ≠ "endloop")
                 else find_downstream_nodes fid nodes conns) input))
            simp [vGet, lookupField] at hle ⊢
            omega
          · have := List.length_filter_le
              (fun r => isStrV (vGet r "status") "success")
              ((x :: xs).map (execute_iteration fx nodes conns
                (if (some e).isSome then
                  (find_downstream_nodes fid nodes conns).filter
                    (fun nid => nodeTypeOf nodes nid ≠ "endloop")
                 else find_downstream_nodes fid nodes conns) input))
            omega
          · simp [vGet, lookupField]
          · simp [execute_endloop_node, vGet, lookupField, pyLen]
          · simp [execute_endloop_node, vGet, lookupField, pyLen]
          · simp [execute_endloop_node, vGet, lookupField, pyLen]
          · simp [execute_endloop_node, vGet, lookupField, pyLen]
          · simp [execute_endloop_node, vGet, lookupField, pyLen]
          · simp [execute_endloop_node, vGet, lookupField, pyLen]
  | null => rw [hi] at h; simp at h
  | bool b => rw [hi] at h; simp at h
  | int n => rw [hi] at h; simp at h
  | float m e => rw [hi] at h; simp at h
  | str s => rw [hi] at h; simp at h
  | obj fs => rw [hi] at h; simp at h

/-- Any error-status entry in the run loop's trace is the last entry, all
earlier entries being non-error (the loop records and then `break`s at the
first error outcome). -/
theorem run_loop_first_error (fx : Effects) (nodes : List (String × NodeData))
    (conns : List Conn) (skips : List String) :
    ∀ (order : List String) (results : List NodeResult) (outputs : List (String × Value)),
      (∀ a ∈ results, a.status ≠ "error") →
      ∀ r, r ∈ run_loop fx nodes conns skips order results outputs → r.status = "error" →
        ∃ pre, run_loop fx nodes conns skips order results outputs = pre ++ [r] ∧
          ∀ p ∈ pre, p.status ≠ "error" := by
  intro order
  induction order with
  | nil =>
    intro results outputs hacc r hr herr
    simp only [run_loop] at hr
    exact absurd herr (hacc r hr)
  | cons nid rest ih =>
    intro results outputs hacc r hr herr
    simp only [run_loop] at hr ⊢
    cases hn : lookupNode nodes nid with
    | none =>
      rw [hn] at hr
      exact ih results outputs hacc r hr herr
    | some nd =>
      rw [hn] at hr
      by_cases hskip : nid ∈ skips
      · simp only [hskip, if_true] at hr ⊢
        exact ih results outputs hacc r hr herr
      · simp only [hskip, if_false] at hr ⊢
        by_cases hsd : nd.skipDuringExecution
        · simp only [hsd, if_true] at hr ⊢
          refine ih _ _ ?_ r hr herr
          intro a ha
          rcases List.mem_append.mp ha with h | h
          · exact hacc a h
          · simp at h
            rw [h]
            intro hx
            exact absurd hx (by simp)
        · simp only [hsd, if_false] at hr ⊢
          by_cases hst : (top_step fx nodes conns nid nd
              (resolve_node_input conns outputs nd.type nid) outputs).1.status = "error"
          · simp only [hst, if_true] at hr ⊢
            rcases List.mem_append.mp hr with h | h
            · exact absurd herr (hacc r h)
            · simp at h
              refine ⟨results, by rw [h]; simp, hacc⟩
          · simp only [hst, if_false] at hr ⊢
            refine ih _ _ ?_ r hr herr
            intro a ha
            rcases List.mem_append.mp ha with h | h
            · exact hacc a h
            · simp at h
              rw [h]
              simpa using hst

/-- C6 (confirmed): if the trace of a run contains an error-status entry,
it is the trace's last entry (no later node of the order was executed), all
earlier entries are non-error, the overall status is `error`, and the
overall error names the failing node's id and its error message. -/
theorem c6_stop_on_first_error (fx : Effects) (nodes : List (String × NodeData))
    (conns : List Conn) (r : NodeResult)
    (hmem : r ∈ (run_workflow fx nodes conns).nodes) (herr : r.status = "error") :
    (run_workflow fx nodes conns).status = "error" ∧
    (run_workflow fx nodes conns).error
      = some ("Node " ++ r.id ++ " failed: " ++ r.error.getD "None") ∧
    ∃ pre, (run_workflow fx nodes conns).nodes = pre ++ [r] ∧
      ∀ p ∈ pre, p.status ≠ "error" := by
  have hnodes : ∀ L, (assemble_response L).nodes = L := by
    intro L
    unfold assemble_response
    cases L.find? (fun a => a.status == "error") <;> rfl
  have hmem' : r ∈ run_loop fx nodes conns (masked_nodes nodes conns)
      (topological_sort_nodes fx.setEnum (nodes.map Prod.fst) conns) [] [] := by
    unfold run_workflow at hmem
    rw [hnodes] at hmem
    exact hmem
  obtain ⟨pre, hpre, hclean⟩ := run_loop_first_error fx nodes conns
    (masked_nodes nodes conns) (topological_sort_nodes fx.setEnum (nodes.map Prod.fst) conns) [] []
    (by simp) r hmem' herr
  have hfind : (run_loop fx nodes conns (masked_nodes nodes conns)
      (topological_sort_nodes fx.setEnum (nodes.map Prod.fst) conns) [] []).find?
      (fun a => a.status == "error") = some r := by
    rw [hpre, List.find?_append]
    have h1 : pre.find? (fun a => a.status == "error") = none := by
      apply List.find?_eq_none.mpr
      intro x hx
      simpa using hclean x hx
    rw [h1]
    simp [List.find?, herr]
  refine ⟨?_, ?_, ?_⟩
  · unfold run_workflow assemble_response
    rw [hfind]
  · unfold run_workflow assemble_response
    rw [hfind]
  · unfold run_workflow
    rw [hnodes]
    exact ⟨pre, hpre, hclean⟩

/-! ### Counting lemmas for the topological-sort proof -/

theorem cnt_nil (x : String) : cnt x [] = 0 := rfl

theorem cnt_cons (x y : String) (l : List String) :
    cnt x (y :: l) = cnt x l + (if y = x then 1 else 0) := by
  by_cases h : y = x <;> simp [cnt, h]

theorem cnt_eq_zero {x : String} {l : List String} :
    cnt x l = 0 ↔ x ∉ l := by
  induction l with
  | nil => simp [cnt]
  | cons y l ih =>
    rw [cnt_cons]
    by_cases h : y = x
    · subst h; simp
    · simp [h, ih, Ne.symm h]

theorem mem_of_cnt_pos {x : String} {l : List String} (h : 0 < cnt x l) : x ∈ l := by
  by_contra hx
  rw [← cnt_eq_zero] at hx
  omega

theorem cnt_map_eq_filter_length (f : Conn → String) (l : List Conn) (x : String) :
    cnt x (l.map f) = (l.filter (fun c => f c = x)).length := by
  induction l with
  | nil => rfl
  | cons c l ih =>
    by_cases h : f c = x <;> simp [cnt_cons, cnt, h] at ih ⊢ <;> simp [ih]

theorem filter_length_mono {α : Type} (l : List α) (p q : α → Bool)
    (himp : ∀ x, q x = true → p x = true) :
    (l.filter q).length ≤ (l.filter p).length := by
  induction l with
  | nil => simp
  | cons x l ih =>
    by_cases hq : q x
    · simp [hq, himp x hq]; omega
    · by_cases hp : p x <;> simp [hq, hp] <;> omega

theorem filter_length_eq_imp {α : Type} (l : List α) (p q : α → Bool)
    (himp : ∀ x, q x = true → p x = true)
    (h : (l.filter q).length = (l.filter p).length) :
    ∀ x ∈ l, p x = true → q x = true := by
  induction l with
  | nil => simp
  | cons a l ih =>
    intro x hx hpx
    have hmono := filter_length_mono l p q himp
    by_cases hqa : q a
    · have hpa := himp a hqa
      simp [hqa, hpa] at h
      rcases List.mem_cons.mp hx with rfl | hx
      · exact hqa
      · exact ih h x hx hpx
    · by_cases hpa : p a
      · simp [hqa, hpa] at h
        omega
      · simp [hqa, hpa] at h
        rcases List.mem_cons.mp hx with rfl | hx
        · exact absurd hpx hpa
        · exact ih h x hx hpx

theorem exists_of_filter_length_lt {α : Type} (l : List α) (p q : α → Bool)
    (h : (l.filter q).length < (l.filter p).length) :
    ∃ x ∈ l, p x = true ∧ q x = false := by
  induction l with
  | nil => simp at h
  | cons a l ih =>
    by_cases hqa : q a
    · by_cases hpa : p a
      · simp [hqa, hpa] at h
        obtain ⟨x, hx, hpx, hqx⟩ := ih (by omega)
        exact ⟨x, List.mem_cons_of_mem a hx, hpx, hqx⟩
      · simp [hqa, hpa] at h
        obtain ⟨x, hx, hpx, hqx⟩ := ih (by omega)
        exact ⟨x, List.mem_cons_of_mem a hx, hpx, hqx⟩
    · by_cases hpa : p a
      · exact ⟨a, List.mem_cons_self a l, hpa, by simpa using hqa⟩
      · simp [hqa, hpa] at h
        obtain ⟨x, hx, hpx, hqx⟩ := ih h
        exact ⟨x, List.mem_cons_of_mem a hx, hpx, hqx⟩

theorem filter_length_add_le {α : Type} (l : List α) (p q r : α → Bool)
    (hpr : ∀ x, p x = true → r x = true) (hqr : ∀ x, q x = true → r x = true)
    (hdis : ∀ x, ¬(p x = true ∧ q x = true)) :
    (l.filter p).length + (l.filter q).length ≤ (l.filter r).length := by
  induction l with
  | nil => simp
  | cons a l ih =>
    by_cases hpa : p a
    · have hra := hpr a hpa
      have hqa : q a = false := by
        by_contra hq
        exact hdis a ⟨hpa, by simpa using hq⟩
      simp [hpa, hqa, hra]
      omega
    · by_cases hqa : q a
      · have hra := hqr a hqa
        simp [hpa, hqa, hra]
        omega
      · by_cases hra : r a <;> simp [hpa, hqa, hra] <;> omega

theorem filter_length_add_eq {α : Type} (l : List α) (p q r : α → Bool)
    (hsplit : ∀ x, r x = (p x || q x)) (hdis : ∀ x, ¬(p x = true ∧ q x = true)) :
    (l.filter r).length = (l.filter p).length + (l.filter q).length := by
  induction l with
  | nil => simp
  | cons a l ih =>
    have hra := hsplit a
    by_cases hpa : p a
    · have hqa : q a = false := by
        by_contra hq
        exact hdis a ⟨hpa, by simpa using hq⟩
      simp [hpa, hqa, hra] at ih ⊢
      omega
    · by_cases hqa : q a
      · simp [hpa, hqa, hra] at ih ⊢
        omega
      · simp [hpa, hqa, hra] at ih ⊢
        omega

theorem sum_map_add (l : List String) (f g : String → Nat) :
    (l.map (fun x => f x + g x)).sum = (l.map f).sum + (l.map g).sum := by
  induction l with
  | nil => rfl
  | cons x l ih => simp [ih]; omega

theorem sum_indicator (l : List String) (t : String) (hnd : l.Nodup) (ht : t ∈ l) :
    (l.map (fun n => if t = n then 1 else 0)).sum = 1 := by
  induction l with
  | nil => simp at ht
  | cons x l ih =>
    rcases List.mem_cons.mp ht with rfl | ht
    · have hx : t ∉ l := (List.nodup_cons.mp hnd).1
      have hz : (l.map (fun n => if t = n then 1 else 0)).sum = 0 := by
        apply List.sum_eq_zero
        intro y hy
        simp at hy
        obtain ⟨n, hn, hyn⟩ := hy
        by_cases h : t = n
        · exact absurd (h ▸ hn) hx
        · simp [h] at hyn; omega
      simp [hz]
    · have hx : x ≠ t := by
        rintro rfl
        exact (List.nodup_cons.mp hnd).1 ht
      simp [Ne.symm hx]
      exact ih (List.nodup_cons.mp hnd).2 ht

theorem sum_cnt (ts nodeIds : List String) (hsub : ∀ x ∈ ts, x ∈ nodeIds)
    (hnd : nodeIds.Nodup) :
    (nodeIds.map (fun n => cnt n ts)).sum = ts.length := by
  induction ts with
  | nil => simp [cnt_nil]
  | cons t ts ih =>
    have h1 : (nodeIds.map (fun n => cnt n (t :: ts))).sum
        = (nodeIds.map (fun n => cnt n ts)).sum
          + (nodeIds.map (fun n => if t = n then 1 else 0)).sum := by
      rw [← sum_map_add]
      congr 1
      apply List.map_congr_left
      intro n _
      rw [cnt_cons]
    rw [h1, ih (fun x hx => hsub x (List.mem_cons_of_mem t hx)),
        sum_indicator nodeIds t hnd (hsub t (List.mem_cons_self t ts))]
    simp

theorem sum_toNat_sub (nodeIds : List String) (deg : String → Int) (c : String → Nat)
    (h : ∀ x ∈ nodeIds, (c x : Int) ≤ deg x) :
    (nodeIds.map (fun n => (deg n - (c n : Int)).toNat)).sum + (nodeIds.map c).sum
      = (nodeIds.map (fun n => (deg n).toNat)).sum := by
  induction nodeIds with
  | nil => simp
  | cons x l ih =>
    have hx := h x (List.mem_cons_self x l)
    have ihl := ih (fun y hy => h y (List.mem_cons_of_mem x hy))
    simp only [List.map_cons, List.sum_cons]
    omega

theorem edges_sub (nodeIds : List String) (conns : List Conn) :
    ∀ c ∈ edges nodeIds conns, c ∈ conns := by
  intro c hc
  exact List.mem_of_mem_filter hc

theorem edges_mem_iff (nodeIds : List String) (conns : List Conn) (c : Conn) :
    c ∈ edges nodeIds conns ↔ c ∈ conns ∧ c.source ∈ nodeIds ∧ c.target ∈ nodeIds := by
  simp [edges, List.mem_filter]

theorem buildGraph_spec (nodeIds : List String) (conns : List Conn) (n : String) :
    buildGraph nodeIds conns n
      = ((edges nodeIds conns).filter (fun c => c.source = n)).map (fun c => c.target) := by
  suffices h : ∀ (cs : List Conn) (g : String → List String),
      (cs.foldl
        (fun g c =>
          if c.source ∈ nodeIds ∧ c.target ∈ nodeIds then
            fun x => if x = c.source then g x ++ [c.target] else g x
          else g)
        g) n
      = g n ++ (cs.filter (fun c => decide (c.source = n)
            && (decide (c.source ∈ nodeIds) && decide (c.target ∈ nodeIds)))).map
          (fun c => c.target) by
    rw [buildGraph, h conns (fun _ => [])]
    rw [edges, List.filter_filter]
    simp
  intro cs
  induction cs with
  | nil => intro g; simp
  | cons c cs ih =>
    intro g
    simp only [List.foldl_cons, List.filter_cons]
    by_cases hin : c.source ∈ nodeIds ∧ c.target ∈ nodeIds
    · rw [if_pos hin, ih]
      by_cases hn : c.source = n
      · simp [hn, hn ▸ hin.1, hin.2]
      · have hns : ¬ (n = c.source) := fun hh => hn hh.symm
        simp [hn, hns]
    · rw [if_neg hin, ih]
      have hb : (decide (c.source = n)
          && (decide (c.source ∈ nodeIds) && decide (c.target ∈ nodeIds))) = false := by
        rcases not_and_or.mp hin with h1 | h1 <;> simp [h1]
      simp [hb]

theorem buildIndeg_spec (nodeIds : List String) (conns : List Conn) (t : String) :
    buildIndeg nodeIds conns t = (ecnt (edges nodeIds conns) t : Int) := by
  suffices h : ∀ (cs : List Conn) (d : String → Int),
      (cs.foldl
        (fun d c =>
          if c.source ∈ nodeIds ∧ c.target ∈ nodeIds then
            fun x => if x = c.target then d x + 1 else d x
          else d)
        d) t
      = d t + ((cs.filter (fun c => decide (c.target = t)
            && (decide (c.source ∈ nodeIds) && decide (c.target ∈ nodeIds)))).length : Int) by
    rw [buildIndeg, h conns (fun _ => 0)]
    rw [ecnt, edges, List.filter_filter]
    simp
  intro cs
  induction cs with
  | nil => intro d; simp
  | cons c cs ih =>
    intro d
    simp only [List.foldl_cons, List.filter_cons]
    by_cases hin : c.source ∈ nodeIds ∧ c.target ∈ nodeIds
    · rw [if_pos hin, ih]
      by_cases ht : c.target = t
      · simp [ht, hin.1, ht ▸ hin.2]
        omega
      · have hts : ¬ (t = c.target) := fun hh => ht hh.symm
        simp [ht, hts]
    · rw [if_neg hin, ih]
      have hb : (decide (c.target = t)
          && (decide (c.source ∈ nodeIds) && decide (c.target ∈ nodeIds))) = false := by
        rcases not_and_or.mp hin with h1 | h1 <;> simp [h1]
      simp [hb]

theorem cnt_graph_eq_epair (nodeIds : List String) (conns : List Conn) (n t : String) :
    cnt t (buildGraph nodeIds conns n) = epair (edges nodeIds conns) n t := by
  rw [buildGraph_spec, cnt_map_eq_filter_length, epair]
  rw [List.filter_filter]
  congr 1
  apply List.filter_congr
  intro c _
  by_cases h1 : c.source = n <;> by_cases h2 : c.target = t <;> simp [h1, h2]

theorem ecount_nil (E : List Conn) (t : String) : ecount E [] t = 0 := by
  simp [ecount]

theorem ecount_le_ecnt (E : List Conn) (res : List String) (t : String) :
    ecount E res t ≤ ecnt E t := by
  apply filter_length_mono
  intro c hc
  simp at hc
  simp [hc.1]

theorem ecount_append_single (E : List Conn) (res : List String) (n t : String)
    (hn : n ∉ res) :
    ecount E (res ++ [n]) t = ecount E res t + epair E n t := by
  unfold ecount epair
  apply filter_length_add_eq
  · intro c
    by_cases h1 : c.target = t <;> by_cases h2 : c.source ∈ res <;>
      by_cases h3 : c.source = n <;> simp [h1, h2, h3]
  · intro c ⟨h1, h2⟩
    simp at h1 h2
    exact hn (h2.1 ▸ h1.2)

theorem all_sources_in_of_ecount_eq (E : List Conn) (res : List String) (t : String)
    (h : ecount E res t = ecnt E t) :
    ∀ c ∈ E, c.target = t → c.source ∈ res := by
  intro c hc hct
  have hx := filter_length_eq_imp E (fun c => c.target = t)
    (fun c => c.target = t && decide (c.source ∈ res))
    (by intro x hx; simp at hx; simp [hx.1]) h c hc (by simp [hct])
  simp at hx
  exact hx.2

theorem exists_source_not_in_of_lt (E : List Conn) (res : List String) (t : String)
    (h : ecount E res t < ecnt E t) :
    ∃ c ∈ E, c.target = t ∧ c.source ∉ res := by
  obtain ⟨c, hc, hp, hq⟩ := exists_of_filter_length_lt E (fun c => c.target = t)
    (fun c => c.target = t && decide (c.source ∈ res)) h
  simp at hp hq
  exact ⟨c, hc, hp, hq hp⟩

theorem relaxTargets_spec (ts : List String) (deg : String → Int)
    (h : ∀ t, (cnt t ts : Int) ≤ deg t) :
    (relaxTargets ts deg).1 = (fun x => deg x - (cnt x ts : Int)) ∧
    (∀ t, t ∈ (relaxTargets ts deg).2 ↔ (t ∈ ts ∧ deg t = (cnt t ts : Int))) ∧
    (relaxTargets ts deg).2.Nodup ∧
    (∀ t ∈ (relaxTargets ts deg).2, t ∈ ts) ∧
    (relaxTargets ts deg).2.length ≤ ts.length := by
  induction ts generalizing deg with
  | nil =>
    refine ⟨?_, ?_, ?_, ?_, ?_⟩
    · funext x
      simp [relaxTargets, cnt_nil]
    · intro t
      simp [relaxTargets]
    · simp [relaxTargets]
    · intro t ht
      simp [relaxTargets] at ht
    · simp [relaxTargets]
  | cons t rest ih =>
    have hcc : ∀ x, cnt x (t :: rest) = cnt x rest + (if t = x then 1 else 0) := fun x =>
      cnt_cons x t rest
    set deg1 : String → Int := fun x => if x = t then deg x - 1 else deg x with hdeg1
    have h' : ∀ x, (cnt x rest : Int) ≤ deg1 x := by
      intro x
      have hx := h x
      rw [hcc x] at hx
      by_cases hxt : x = t
      · subst hxt
        simp [hdeg1] at hx ⊢
        omega
      · have : ¬ (t = x) := fun hh => hxt hh.symm
        simp [hdeg1, hxt, this] at hx ⊢
        omega
    obtain ⟨ih1, ih2, ih3, ih4, ih5⟩ := ih deg1 h'
    have hunf : relaxTargets (t :: rest) deg
        = ((relaxTargets rest deg1).1,
           (if deg1 t = 0 then [t] else []) ++ (relaxTargets rest deg1).2) := by
      simp [relaxTargets, hdeg1]
    refine ⟨?_, ?_, ?_, ?_, ?_⟩
    · rw [hunf]
      funext x
      rw [ih1]
      rw [hcc x]
      by_cases hxt : x = t
      · subst hxt
        simp [hdeg1]
        omega
      · have hts : ¬ (t = x) := fun hh => hxt hh.symm
        simp [hdeg1, hxt, hts]
    · intro x
      rw [hunf]
      simp only [List.mem_append]
      constructor
      · intro hx
        rcases hx with hx | hx
        · by_cases hz : deg1 t = 0
          · simp [hz] at hx
            subst hx
            have h0 : deg x - 1 = 0 := by simpa [hdeg1] using hz
            have hcr : cnt x rest = 0 := by
              have := h' x
              simp [hdeg1] at this
              omega
            refine ⟨List.mem_cons_self x rest, ?_⟩
            rw [hcc x]
            simp [hcr]
            omega
          · simp [hz] at hx
        · obtain ⟨hmem, hval⟩ := (ih2 x).mp hx
          refine ⟨List.mem_cons_of_mem t hmem, ?_⟩
          rw [hcc x]
          by_cases hxt : x = t
          · subst hxt
            simp [hdeg1] at hval
            simp
            omega
          · have hts : ¬ (t = x) := fun hh => hxt hh.symm
            simp [hdeg1, hxt] at hval
            simp [hts]
            omega
      · rintro ⟨hmem, hval⟩
        rw [hcc x] at hval
        by_cases hxt : x = t
        · subst hxt
          by_cases hcr : cnt x rest = 0
          · left
            have hz : deg1 x = 0 := by
              simp [hdeg1]
              simp [hcr] at hval
              omega
            simp [hz]
          · right
            apply (ih2 x).mpr
            refine ⟨mem_of_cnt_pos (by omega), ?_⟩
            simp [hdeg1]
            simp at hval
            omega
        · right
          apply (ih2 x).mpr
          rcases List.mem_cons.mp hmem with hh | hh
          · exact absurd hh hxt
          · refine ⟨hh, ?_⟩
            have hts : ¬ (t = x) := fun hh2 => hxt hh2.symm
            simp [hts] at hval
            simp [hdeg1, hxt]
            omega
    · rw [hunf]
      by_cases hz : deg1 t = 0
      · simp [hz, ih3]
        intro hmem
        obtain ⟨hmem', hval⟩ := (ih2 t).mp hmem
        have h0 : deg t - 1 = 0 := by simpa [hdeg1] using hz
        have : cnt t rest = 0 := by
          have hle := h t
          rw [hcc t] at hle
          simp at hle
          simp [hdeg1] at hval
          omega
        exact absurd hmem' (cnt_eq_zero.mp this)
      · simp [hz, ih3]
    · intro x hx
      rw [hunf] at hx
      simp only [List.mem_append] at hx
      rcases hx with hx | hx
      · by_cases hz : deg1 t = 0
        · simp [hz] at hx
          subst hx
          exact List.mem_cons_self x rest
        · simp [hz] at hx
      · exact List.mem_cons_of_mem t (ih4 x hx)
    · rw [hunf]
      simp only [List.length_append]
      by_cases hz : deg1 t = 0 <;> simp [hz] <;> omega

theorem graph_target_mem (nodeIds : List String) (conns : List Conn) (n x : String)
    (hx : x ∈ buildGraph nodeIds conns n) : x ∈ nodeIds := by
  rw [buildGraph_spec] at hx
  simp only [List.mem_map] at hx
  obtain ⟨c, hc, hcx⟩ := hx
  have hce := List.mem_of_mem_filter hc
  exact hcx ▸ ((edges_mem_iff nodeIds conns c).mp hce).2.2

theorem epair_pos_edge (E : List Conn) (n x : String) (h : 0 < epair E n x) :
    ∃ c ∈ E, c.source = n ∧ c.target = x := by
  unfold epair at h
  rw [List.length_pos] at h
  obtain ⟨c, hc⟩ := List.exists_mem_of_ne_nil _ h
  have := List.mem_filter.mp hc
  refine ⟨c, this.1, ?_⟩
  have h2 := this.2
  simp at h2
  exact h2

/-- Key inequality at a pop: the out-edge multiplicities of the popped node
are bounded by the current in-degrees. -/
theorem cnt_graph_le_deg (nodeIds : List String) (conns : List Conn)
    (queue : List String) (deg : String → Int) (res : List String)
    (inv : KahnInv nodeIds conns queue deg res) (n : String) (hn : n ∉ res) :
    ∀ x, (cnt x (buildGraph nodeIds conns n) : Int) ≤ deg x := by
  intro x
  rw [cnt_graph_eq_epair, inv.degEq x]
  have hle : ecount (edges nodeIds conns) res x + epair (edges nodeIds conns) n x
      ≤ ecnt (edges nodeIds conns) x := by
    unfold ecount epair ecnt
    apply filter_length_add_le
    · intro c hc
      simp at hc
      simp [hc.1]
    · intro c hc
      simp at hc
      simp [hc.2]
    · intro c ⟨h1, h2⟩
      simp at h1 h2
      exact hn (h2.1 ▸ h1.2)
  omega

/-- If a node's current in-degree is zero, every edge from an unpopped node
to it is impossible. -/
theorem epair_eq_zero_of_deg_zero (nodeIds : List String) (conns : List Conn)
    (queue : List String) (deg : String → Int) (res : List String)
    (inv : KahnInv nodeIds conns queue deg res) (n x : String)
    (hn : n ∉ res) (hx : deg x = 0) : epair (edges nodeIds conns) n x = 0 := by
  by_contra hne
  have hpos : 0 < epair (edges nodeIds conns) n x := Nat.pos_of_ne_zero hne
  obtain ⟨c, hc, hcs, hct⟩ := epair_pos_edge _ n x hpos
  have hdeg := inv.degEq x
  rw [hx] at hdeg
  have heq : ecount (edges nodeIds conns) res x = ecnt (edges nodeIds conns) x := by
    have := ecount_le_ecnt (edges nodeIds conns) res x
    omega
  have := all_sources_in_of_ecount_eq _ _ _ heq c hc hct
  exact hn (hcs ▸ this)

/-- Invariant maintenance across one iteration of the Kahn loop. -/
theorem kahn_step_inv (nodeIds : List String) (conns : List Conn)
    (n : String) (rest : List String) (deg : String → Int) (res : List String)
    (inv : KahnInv nodeIds conns (n :: rest) deg res) :
    KahnInv nodeIds conns (rest ++ (relaxTargets (buildGraph nodeIds conns n) deg).2)
      (relaxTargets (buildGraph nodeIds conns n) deg).1 (res ++ [n]) := by
  have hnodup := inv.nodup
  have hnres : n ∉ res := by
    intro hmem
    rw [List.nodup_append] at hnodup
    exact hnodup.2.2 hmem (List.mem_cons_self n rest)
  have hnrest : n ∉ rest := by
    rw [List.nodup_append] at hnodup
    exact (List.nodup_cons.mp hnodup.2.1).1
  have hdegn : deg n = 0 := inv.queueZero n (List.mem_cons_self n rest)
  have hcle := cnt_graph_le_deg nodeIds conns _ deg res inv n hnres
  obtain ⟨r1, r2, r3, r4, r5⟩ :=
    relaxTargets_spec (buildGraph nodeIds conns n) deg hcle
  have hdeg' : ∀ x, (relaxTargets (buildGraph nodeIds conns n) deg).1 x
      = deg x - (epair (edges nodeIds conns) n x : Int) := by
    intro x
    simp only [r1, cnt_graph_eq_epair]
  have henq_pos : ∀ x ∈ (relaxTargets (buildGraph nodeIds conns n) deg).2, 0 < deg x := by
    intro x hx
    obtain ⟨hmem, hval⟩ := (r2 x).mp hx
    have : 0 < cnt x (buildGraph nodeIds conns n) := by
      rcases Nat.eq_zero_or_pos (cnt x (buildGraph nodeIds conns n)) with hz | hp
      · exact absurd hmem (cnt_eq_zero.mp hz)
      · exact hp
    omega
  have henq_not_old : ∀ x ∈ (relaxTargets (buildGraph nodeIds conns n) deg).2,
      x ∉ res ∧ x ≠ n ∧ x ∉ rest := by
    intro x hx
    have hpos := henq_pos x hx
    refine ⟨?_, ?_, ?_⟩
    · intro hmem
      have := inv.resZero x hmem
      omega
    · rintro rfl
      omega
    · intro hmem
      have := inv.queueZero x (List.mem_cons_of_mem n hmem)
      omega
  constructor
  -- nodup
  · have hEq : (res ++ [n]) ++ (rest ++ (relaxTargets (buildGraph nodeIds conns n) deg).2)
        = (res ++ n :: rest) ++ (relaxTargets (buildGraph nodeIds conns n) deg).2 := by
      simp
    rw [hEq, List.nodup_append]
    refine ⟨hnodup, r3, ?_⟩
    intro a ha hb
    rcases List.mem_append.mp ha with ha' | ha'
    · exact (henq_not_old a hb).1 ha'
    · rcases List.mem_cons.mp ha' with rfl | ha''
      · exact (henq_not_old a hb).2.1 rfl
      · exact (henq_not_old a hb).2.2 ha''
  -- degEq
  · intro t
    rw [hdeg', inv.degEq t, ecount_append_single _ _ _ _ hnres]
    omega
  -- queueZero
  · intro t ht
    rcases List.mem_append.mp ht with ht' | ht'
    · have h0 : deg t = 0 := inv.queueZero t (List.mem_cons_of_mem n ht')
      rw [hdeg' t, h0,
        epair_eq_zero_of_deg_zero nodeIds conns _ deg res inv n t hnres h0]
      simp
    · obtain ⟨hmem, hval⟩ := (r2 t).mp ht'
      simp only [r1]
      omega
  -- resZero
  · intro t ht
    rcases List.mem_append.mp ht with ht' | ht'
    · have h0 : deg t = 0 := inv.resZero t ht'
      rw [hdeg' t, h0,
        epair_eq_zero_of_deg_zero nodeIds conns _ deg res inv n t hnres h0]
      simp
    · simp at ht'
      subst ht'
      have hc := hcle t
      rw [cnt_graph_eq_epair] at hc
      rw [hdeg' t]
      omega
  -- resClosed
  · intro c hc hct
    rcases List.mem_append.mp hct with hct' | hct'
    · exact (inv.resClosed c hc hct').trans (List.sublist_append_left res [n])
    · simp at hct'
      have hdegt : deg c.target = 0 := hct' ▸ hdegn
      have heq : ecount (edges nodeIds conns) res c.target
          = ecnt (edges nodeIds conns) c.target := by
        have h1 := inv.degEq c.target
        rw [hdegt] at h1
        have := ecount_le_ecnt (edges nodeIds conns) res c.target
        omega
      have hsrc : c.source ∈ res := all_sources_in_of_ecount_eq _ _ _ heq c hc rfl
      have h1 : [c.source].Sublist res := List.singleton_sublist.mpr hsrc
      have h2 : [c.target].Sublist [n] := by rw [hct']
      exact List.Sublist.append h1 h2
  -- queueSub
  · intro t ht
    rcases List.mem_append.mp ht with ht' | ht'
    · exact inv.queueSub t (List.mem_cons_of_mem n ht')
    · exact graph_target_mem nodeIds conns n t (r4 t ht')
  -- resSub
  · intro t ht
    rcases List.mem_append.mp ht with ht' | ht'
    · exact inv.resSub t ht'
    · simp at ht'
      subst ht'
      exact inv.queueSub t (List.mem_cons_self t rest)
  -- covered
  · intro m hm
    rcases inv.covered m hm with hc | hc | hc
    · exact Or.inl (List.mem_append.mpr (Or.inl hc))
    · rcases List.mem_cons.mp hc with rfl | hc'
      · exact Or.inl (List.mem_append.mpr (Or.inr (List.mem_singleton.mpr rfl)))
      · exact Or.inr (Or.inl (List.mem_append.mpr (Or.inl hc')))
    · have hge : 0 ≤ (relaxTargets (buildGraph nodeIds conns n) deg).1 m := by
        have hx := hcle m
        simp only [r1]
        omega
      rcases lt_or_eq_of_le hge with hgt | heq0
      · exact Or.inr (Or.inr hgt)
      · have hcm : (cnt m (buildGraph nodeIds conns n) : Int) = deg m := by
          simp only [r1] at heq0
          omega
        have hmem : m ∈ buildGraph nodeIds conns n :=
          mem_of_cnt_pos (by omega)
        refine Or.inr (Or.inl (List.mem_append.mpr (Or.inr ?_)))
        exact (r2 m).mpr ⟨hmem, by omega⟩

/-- The loop measure strictly decreases across one iteration of the Kahn
loop. -/
theorem kahn_step_measure (nodeIds : List String) (conns : List Conn)
    (hnd : nodeIds.Nodup) (n : String) (rest : List String) (deg : String → Int)
    (hcle : ∀ x, (cnt x (buildGraph nodeIds conns n) : Int) ≤ deg x) :
    kahnMeasure nodeIds (rest ++ (relaxTargets (buildGraph nodeIds conns n) deg).2)
        (relaxTargets (buildGraph nodeIds conns n) deg).1
      < kahnMeasure nodeIds (n :: rest) deg := by
  obtain ⟨r1, r2, r3, r4, r5⟩ := relaxTargets_spec (buildGraph nodeIds conns n) deg hcle
  have hsub : ∀ x ∈ buildGraph nodeIds conns n, x ∈ nodeIds :=
    fun x hx => graph_target_mem nodeIds conns n x hx
  have hsum := sum_toNat_sub nodeIds deg
    (fun x => cnt x (buildGraph nodeIds conns n)) (fun x _ => hcle x)
  beta_reduce at hsum
  have hcnt := sum_cnt (buildGraph nodeIds conns n) nodeIds hsub hnd
  unfold kahnMeasure
  simp only [List.length_append, List.length_cons, r1]
  omega

theorem kahnLoop_cons (graph : String → List String) (fuel : Nat) (n : String)
    (rest : List String) (deg : String → Int) (res : List String) :
    kahnLoop graph (fuel + 1) (n :: rest) deg res
      = kahnLoop graph fuel (rest ++ (relaxTargets (graph n) deg).2)
          (relaxTargets (graph n) deg).1 (res ++ [n]) := rfl

/-- Master induction for the Kahn loop: given the invariant and enough
fuel, the result extends `res`, is duplicate-free, stays within the node
set, respects every emitted edge, and every node left out has an in-edge
whose source was also left out. -/
theorem kahnLoop_master (nodeIds : List String) (conns : List Conn)
    (hnd : nodeIds.Nodup) :
    ∀ (fuel : Nat) (queue : List String) (deg : String → Int) (res : List String),
      KahnInv nodeIds conns queue deg res →
      kahnMeasure nodeIds queue deg < fuel →
      (∃ tail, kahnLoop (buildGraph nodeIds conns) fuel queue deg res = res ++ tail) ∧
      (kahnLoop (buildGraph nodeIds conns) fuel queue deg res).Nodup ∧
      (∀ x ∈ kahnLoop (buildGraph nodeIds conns) fuel queue deg res, x ∈ nodeIds) ∧
      (∀ c ∈ edges nodeIds conns,
        c.target ∈ kahnLoop (buildGraph nodeIds conns) fuel queue deg res →
        [c.source, c.target].Sublist (kahnLoop (buildGraph nodeIds conns) fuel queue deg res)) ∧
      (∀ m ∈ nodeIds, m ∉ kahnLoop (buildGraph nodeIds conns) fuel queue deg res →
        ∃ c ∈ edges nodeIds conns, c.target = m ∧
          c.source ∉ kahnLoop (buildGraph nodeIds conns) fuel queue deg res) := by
  intro fuel
  induction fuel with
  | zero =>
    intro queue deg res _ hm
    omega
  | succ fuel ih =>
    intro queue deg res inv hm
    match queue with
    | [] =>
      have hres : kahnLoop (buildGraph nodeIds conns) (fuel + 1) [] deg res = res := rfl
      rw [hres]
      refine ⟨⟨[], by simp⟩, ?_, ?_, ?_, ?_⟩
      · have := inv.nodup
        simpa using this
      · exact inv.resSub
      · exact inv.resClosed
      · intro m hmn hmr
        rcases inv.covered m hmn with hc | hc | hc
        · exact absurd hc hmr
        · simp at hc
        · have hdeg := inv.degEq m
          have hlt : ecount (edges nodeIds conns) res m < ecnt (edges nodeIds conns) m := by
            omega
          obtain ⟨c, hc1, hc2, hc3⟩ := exists_source_not_in_of_lt _ _ _ hlt
          exact ⟨c, hc1, hc2, hc3⟩
    | n :: rest =>
      have hnres : n ∉ res := by
        have := inv.nodup
        rw [List.nodup_append] at this
        exact fun h => this.2.2 h (List.mem_cons_self n rest)
      have hcle := cnt_graph_le_deg nodeIds conns _ deg res inv n hnres
      have hinv' := kahn_step_inv nodeIds conns n rest deg res inv
      have hmeas := kahn_step_measure nodeIds conns hnd n rest deg hcle
      have hm' : kahnMeasure nodeIds
          (rest ++ (relaxTargets (buildGraph nodeIds conns n) deg).2)
          (relaxTargets (buildGraph nodeIds conns n) deg).1 < fuel := by
        omega
      obtain ⟨⟨tail, htail⟩, h2, h3, h4, h5⟩ := ih _ _ _ hinv' hm'
      rw [kahnLoop_cons]
      refine ⟨⟨[n] ++ tail, ?_⟩, h2, h3, h4, h5⟩
      rw [htail]
      simp

/-- The invariant holds at the start of the Kahn phase. -/
theorem kahn_initial_inv (nodeIds : List String) (conns : List Conn)
    (hnd : nodeIds.Nodup) :
    KahnInv nodeIds conns
      (nodeIds.filter (fun n => buildIndeg nodeIds conns n = 0))
      (buildIndeg nodeIds conns) [] := by
  constructor
  · simpa using hnd.filter _
  · intro t
    rw [buildIndeg_spec]
    simp [ecount_nil]
  · intro t ht
    have := (List.mem_filter.mp ht).2
    simpa using this
  · intro t ht
    simp at ht
  · intro c _ hct
    simp at hct
  · intro t ht
    exact (List.mem_filter.mp ht).1
  · intro t ht
    simp at ht
  · intro m hm
    by_cases h0 : buildIndeg nodeIds conns m = 0
    · exact Or.inr (Or.inl (List.mem_filter.mpr ⟨hm, by simpa using h0⟩))
    · refine Or.inr (Or.inr ?_)
      rw [buildIndeg_spec] at h0 ⊢
      omega

/-- The fuel supplied by `topological_sort_nodes` exceeds the initial loop
measure. -/
theorem kahn_initial_measure (nodeIds : List String) (conns : List Conn)
    (hnd : nodeIds.Nodup) :
    kahnMeasure nodeIds (nodeIds.filter (fun n => buildIndeg nodeIds conns n = 0))
        (buildIndeg nodeIds conns)
      < nodeIds.length + conns.length + 1 := by
  unfold kahnMeasure
  have h1 : (nodeIds.filter (fun n => buildIndeg nodeIds conns n = 0)).length
      ≤ nodeIds.length := List.length_filter_le _ _
  have h2 : (nodeIds.map (fun n => (buildIndeg nodeIds conns n).toNat)).sum
      ≤ conns.length := by
    have he : ∀ n, (buildIndeg nodeIds conns n).toNat
        = cnt n ((edges nodeIds conns).map (fun c => c.target)) := by
      intro n
      rw [buildIndeg_spec, cnt_map_eq_filter_length]
      simp [ecnt]
    have hcongr : (nodeIds.map (fun n => (buildIndeg nodeIds conns n).toNat))
        = nodeIds.map (fun n => cnt n ((edges nodeIds conns).map (fun c => c.target))) := by
      apply List.map_congr_left
      intro n _
      exact he n
    rw [hcongr]
    have hsub : ∀ x ∈ (edges nodeIds conns).map (fun c => c.target), x ∈ nodeIds := by
      intro x hx
      simp only [List.mem_map] at hx
      obtain ⟨c, hc, hcx⟩ := hx
      exact hcx ▸ ((edges_mem_iff nodeIds conns c).mp hc).2.2
    rw [sum_cnt _ _ hsub hnd]
    simp only [List.length_map]
    exact List.length_filter_le _ _
  omega

/-- Everything the master lemma yields, at the actual initial state of
`kahn_phase`. -/
theorem kahn_phase_spec (nodeIds : List String) (conns : List Conn)
    (hnd : nodeIds.Nodup) :
    (kahn_phase nodeIds conns).Nodup ∧
    (∀ x ∈ kahn_phase nodeIds conns, x ∈ nodeIds) ∧
    (∀ c ∈ edges nodeIds conns, c.target ∈ kahn_phase nodeIds conns →
      [c.source, c.target].Sublist (kahn_phase nodeIds conns)) ∧
    (∀ m ∈ nodeIds, m ∉ kahn_phase nodeIds conns →
      ∃ c ∈ edges nodeIds conns, c.target = m ∧ c.source ∉ kahn_phase nodeIds conns) := by
  have h := kahnLoop_master nodeIds conns hnd (nodeIds.length + conns.length + 1)
    (nodeIds.filter (fun n => buildIndeg nodeIds conns n = 0))
    (buildIndeg nodeIds conns) []
    (kahn_initial_inv nodeIds conns hnd)
    (kahn_initial_measure nodeIds conns hnd)
  obtain ⟨_, h2, h3, h4, h5⟩ := h
  exact ⟨h2, h3, h4, h5⟩

/-- Acyclicity (witnessed by a rank function) forces the Kahn phase to
emit every node. -/
theorem kahn_phase_complete (nodeIds : List String) (conns : List Conn)
    (hnd : nodeIds.Nodup) (rank : String → Nat)
    (hr : ∀ c ∈ conns, c.source ∈ nodeIds → c.target ∈ nodeIds →
      rank c.source < rank c.target) :
    ∀ m ∈ nodeIds, m ∈ kahn_phase nodeIds conns := by
  obtain ⟨_, _, _, h5⟩ := kahn_phase_spec nodeIds conns hnd
  suffices hN : ∀ N m, m ∈ nodeIds → rank m < N → m ∈ kahn_phase nodeIds conns by
    intro m hm
    exact hN (rank m + 1) m hm (Nat.lt_succ_self _)
  intro N
  induction N with
  | zero =>
    intro m _ hlt
    omega
  | succ N ih =>
    intro m hm hlt
    by_contra hnot
    obtain ⟨c, hcE, hct, hcs⟩ := h5 m hm hnot
    have hmem := (edges_mem_iff nodeIds conns c).mp hcE
    have hlt2 : rank c.source < rank c.target := hr c hmem.1 hmem.2.1 hmem.2.2
    exact hcs (ih c.source hmem.2.1 (by rw [hct] at hlt2; omega))

theorem kahn_phase_perm_filter (nodeIds : List String) (conns : List Conn)
    (hnd : nodeIds.Nodup) :
    (kahn_phase nodeIds conns).Perm
      (nodeIds.filter (fun n => n ∈ kahn_phase nodeIds conns)) := by
  obtain ⟨h1, h2, _, _⟩ := kahn_phase_spec nodeIds conns hnd
  rw [List.perm_ext_iff_of_nodup h1 (hnd.filter _)]
  intro a
  rw [List.mem_filter]
  constructor
  · intro ha
    exact ⟨h2 a ha, by simpa using ha⟩
  · intro ha
    simpa using ha.2

/-- C2 counterexample: on the two-node cycle `a → b → a` (node insertion
order `b, a`) the Kahn phase emits nothing, and with the legitimate set
enumeration that lists `a` before `b` (reversal — a permutation of its
input, which is all a set enumeration guarantees) the appended leftovers
come out `a, b`: not the original iteration order `b, a` the claim
states. -/
theorem c2_counterexample :
    kahn_phase ["b", "a"] [⟨"a", "b"⟩, ⟨"b", "a"⟩] = [] ∧
    (∀ l : List String, l.reverse.Perm l) ∧
    topological_sort_nodes (fun l => l.reverse) ["b", "a"]
      [⟨"a", "b"⟩, ⟨"b", "a"⟩] = ["a", "b"] ∧
    ¬ List.Sublist ["a", "b"] ["b", "a"] :=
  ⟨rfl, fun l => l.reverse_perm, rfl, by decide⟩

/-- C2 (corrected, amended): the top-level execution order is Kahn's
algorithm over (nodes, connections).  For any duplicate-free node list and
any set enumeration (anything permuting its input, which is all CPython
guarantees of iterating a set): the computed order is a permutation of the
nodes; the Kahn order is followed by exactly the nodes it missed (cycles
or isolated islands), each once, in the enumeration's
implementation-defined order; and whenever the workflow is acyclic
(witnessed by any rank function increasing along every in-scope
connection), every connection s→t has s ordered strictly before t. -/
theorem c2_topological_sort (senum : List String → List String)
    (nodeIds : List String) (conns : List Conn) (hnd : nodeIds.Nodup)
    (henum : ∀ l : List String, (senum l).Perm l) :
    (topological_sort_nodes senum nodeIds conns).Perm nodeIds ∧
    (∃ rest, topological_sort_nodes senum nodeIds conns
        = kahn_phase nodeIds conns ++ rest ∧
      rest.Perm (nodeIds.filter (fun n => n ∉ kahn_phase nodeIds conns))) ∧
    (∀ rank : String → Nat,
      (∀ c ∈ conns, c.source ∈ nodeIds → c.target ∈ nodeIds →
        rank c.source < rank c.target) →
      ∀ c ∈ conns, c.source ∈ nodeIds → c.target ∈ nodeIds →
        [c.source, c.target].Sublist (topological_sort_nodes senum nodeIds conns)) := by
  obtain ⟨h1, h2, h4, _⟩ := kahn_phase_spec nodeIds conns hnd
  have hdef : topological_sort_nodes senum nodeIds conns
      = kahn_phase nodeIds conns
        ++ senum (nodeIds.filter (fun n => n ∉ kahn_phase nodeIds conns)) := rfl
  refine ⟨?_, ⟨_, hdef, henum _⟩, ?_⟩
  · rw [hdef]
    have hp1 := kahn_phase_perm_filter nodeIds conns hnd
    have hp2 := List.filter_append_perm
      (fun n => n ∈ kahn_phase nodeIds conns) nodeIds
    have hneg : nodeIds.filter (fun n => n ∉ kahn_phase nodeIds conns)
        = nodeIds.filter (fun n => !(decide (n ∈ kahn_phase nodeIds conns))) := by
      apply List.filter_congr
      intro x _
      simp
    have h3 : (senum (nodeIds.filter (fun n => n ∉ kahn_phase nodeIds conns))).Perm
        (nodeIds.filter (fun n => !(decide (n ∈ kahn_phase nodeIds conns)))) := by
      rw [← hneg]
      exact henum _
    exact (hp1.append h3).trans hp2
  · intro rank hr c hc hs ht
    have hcE : c ∈ edges nodeIds conns := (edges_mem_iff nodeIds conns c).mpr ⟨hc, hs, ht⟩
    have hmem : c.target ∈ kahn_phase nodeIds conns :=
      kahn_phase_complete nodeIds conns hnd rank hr c.target ht
    rw [hdef]
    exact (h4 c hcE hmem).trans (List.sublist_append_left _ _)

/-- Witness for C2 on a concrete three-node chain s → p → e with the
identity enumeration. -/
theorem c2_topological_sort_witness :
    (["s", "p", "e"] : List String).Nodup ∧
    (∀ l : List String, ((fun l : List String => l) l).Perm l) ∧
    ((topological_sort_nodes (fun l => l) ["s", "p", "e"]
        [⟨"s", "p"⟩, ⟨"p", "e"⟩]).Perm ["s", "p", "e"] ∧
    (∃ rest, topological_sort_nodes (fun l => l) ["s", "p", "e"]
        [⟨"s", "p"⟩, ⟨"p", "e"⟩]
        = kahn_phase ["s", "p", "e"] [⟨"s", "p"⟩, ⟨"p", "e"⟩] ++ rest ∧
      rest.Perm ((["s", "p", "e"] : List String).filter
        (fun n => n ∉ kahn_phase ["s", "p", "e"] [⟨"s", "p"⟩, ⟨"p", "e"⟩]))) ∧
    (∀ rank : String → Nat,
      (∀ c ∈ ([⟨"s", "p"⟩, ⟨"p", "e"⟩] : List Conn),
        c.source ∈ (["s", "p", "e"] : List String) →
        c.target ∈ (["s", "p", "e"] : List String) →
        rank c.source < rank c.target) →
      ∀ c ∈ ([⟨"s", "p"⟩, ⟨"p", "e"⟩] : List Conn),
        c.source ∈ (["s", "p", "e"] : List String) →
        c.target ∈ (["s", "p", "e"] : List String) →
        [c.source, c.target].Sublist
          (topological_sort_nodes (fun l => l) ["s", "p", "e"]
            [⟨"s", "p"⟩, ⟨"p", "e"⟩]))) :=
  ⟨by decide, fun l => List.Perm.refl l,
   c2_topological_sort (fun l => l) ["s", "p", "e"] [⟨"s", "p"⟩, ⟨"p", "e"⟩]
     (by decide) (fun l => List.Perm.refl l)⟩

/-- Witness for C4 on the empty config and empty-mapping input. -/
theorem c4_items_resolution_witness :
    foreach_items [] (.obj []) = .arr [] ∧
    (execute_foreach_loop trivialEffects [] (.obj []) "f" [] []).outcome =
      ⟨"success",
       .obj [("results", .arr []), ("total", .int 0), ("successful", .int 0),
             ("failed", .int 0)],
       "ForEach loop executed with empty array", "", none⟩ ∧
    (execute_foreach_loop trivialEffects [] (.obj []) "f" [] []).endloop_node_id = none :=
  ⟨rfl,
   ((c4_items_resolution []).2.2.2.1 trivialEffects "f" [] [] (.obj []) rfl).1,
   ((c4_items_resolution []).2.2.2.1 trivialEffects "f" [] [] (.obj []) rfl).2⟩

/-- Witness for C5 on the single-predecessor scenario `a → b` with recorded
output `None`. -/
theorem c5_input_resolution_witness :
    potential_sources c5conns c5outputs "b" = [("a", Value.null)] ∧
    resolve_node_input c5conns c5outputs "end" "b"
      = (if Value.null.truthy then Value.null else .obj []) :=
  ⟨rfl,
   c5_input_resolution.2.1 c5conns c5outputs "end" "b" "a" Value.null rfl⟩

/-- Witness for C7 on a concrete input/output pair: context is copied over,
a `route` absent in the output comes from the input, and unrelated fields
are untouched. -/
theorem c7_metadata_preservation_witness :
    ∃ gfs,
      preserve_metadata
          (.obj [("route", Value.str "r"), ("_workflow_context", Value.int 1)])
          (.obj [("x", Value.int 3)]) = .obj gfs ∧
      lookupField gfs "_workflow_context" = some (.int 1) ∧
      lookupField gfs "route" = some (.str "r") ∧
      lookupField gfs "x" = some (.int 3) := by
  obtain ⟨gfs, hg, h1, _, h3, h4⟩ := c7_metadata_preservation
    [("route", Value.str "r"), ("_workflow_context", Value.int 1)] [("x", Value.int 3)]
  refine ⟨gfs, hg, h1 (.int 1) rfl, ?_, ?_⟩
  · rw [(h3 "route" (Or.inl rfl)).2 rfl]
    rfl
  · rw [h4 "x" (by decide) (by decide) (by decide) (by decide)]
    rfl

/-- Witness for C1 on the `f → (skipped) → el` scenario with iteration set
`[None]`. -/
theorem c1_aggregation_witness :
    c1run.endloop_node_id = some "el" ∧
    (∃ (items : List Value) (results : List Value),
      foreach_items [] (.arr [.null]) = .arr items ∧
      results.length = items.length ∧
      (let out := c1run.outcome.output
       let successful := (results.filter (fun r => isStrV (vGet r "status") "success")).length
       let aggregated := (results.filter (fun r =>
           isStrV (vGet r "status") "success" && ! isNullV (vGet r "output"))).map
         (fun r => vGet r "output")
       vGet out "results" = .arr results ∧
       vGet out "items" = .arr items ∧
       vGet out "total" = .int results.length ∧
       vGet out "successful" = .int successful ∧
       vGet out "failed" = .int (results.length - successful) ∧
       successful + (results.length - successful) = results.length ∧
       vGet out "aggregated_outputs" = .arr aggregated ∧
       (execute_endloop_node out).status = "success" ∧
       vGet (execute_endloop_node out).output "total" = .int results.length ∧
       vGet (execute_endloop_node out).output "successful" = .int aggregated.length ∧
       vGet (execute_endloop_node out).output "failed"
         = .int ((results.length : Int) - (aggregated.length : Int)) ∧
       vGet (execute_endloop_node out).output "aggregated_outputs" = .arr aggregated ∧
       vGet (execute_endloop_node out).output "results" = .arr results)) :=
  ⟨rfl, c1_aggregation trivialEffects [] (.arr [.null]) "f" "el" c1nodes c1conns rfl⟩

/-- Witness for C6 on the one-node workflow whose single node has an
unknown type. -/
theorem c6_stop_on_first_error_witness :
    c6entry ∈ (run_workflow trivialEffects c6nodes []).nodes ∧
    c6entry.status = "error" ∧
    ((run_workflow trivialEffects c6nodes []).status = "error" ∧
    (run_workflow trivialEffects c6nodes []).error
      = some ("Node " ++ c6entry.id ++ " failed: " ++ c6entry.error.getD "None") ∧
    ∃ pre, (run_workflow trivialEffects c6nodes []).nodes = pre ++ [c6entry] ∧
      ∀ p ∈ pre, p.status ≠ "error") := by
  have hnodes : (run_workflow trivialEffects c6nodes []).nodes = [c6entry] := rfl
  have hmem : c6entry ∈ (run_workflow trivialEffects c6nodes []).nodes := by
    rw [hnodes]
    exact List.mem_singleton.mpr rfl
  exact ⟨hmem, rfl,
    c6_stop_on_first_error trivialEffects c6nodes [] c6entry hmem rfl⟩

end Workflow
